import Mathlib

/-
Verification of the OpenFoodFacts nutritional-data importer
(`python/nutritional_data_importer/`): a shallow embedding of its data
cleaning, allergen mapping, duplicate merging, row filtering and batch
persistence logic, with theorems settling the specified properties.

Python strings are modelled as lists of characters (`Str`); Python scalar
values (as they appear in pandas rows and database rows) as `PyVal`;
Python floats as exact rationals (`FloatVal`), with NaN and the infinities
explicit.  Functions that can raise an uncaught exception return `Option`
(`none` = raises).
-/

/-- Characters of a Python string. -/
abbrev Str := List Char

/-- ASCII lower-casing, as applied by `str.lower()` on the ASCII inputs the
importer handles (non-ASCII characters are left unchanged; every non-ASCII
character appearing in the source tables is already lower case). -/
def asciiLower (c : Char) : Char :=
  if 'A' ≤ c ∧ c ≤ 'Z' then Char.ofNat (c.toNat + 32) else c

/-- Model of `str.lower()`. -/
def lowerL (s : Str) : Str := s.map asciiLower

/-- Whitespace as recognised by `str.strip()`. -/
def isSpaceC (c : Char) : Bool := c = ' ' || c = '\t' || c = '\n' || c = '\r'

/-- Model of `str.strip()`: drop leading and trailing whitespace. -/
def stripL (s : Str) : Str :=
  ((s.dropWhile isSpaceC).reverse.dropWhile isSpaceC).reverse

/-- Model of the Python substring test `needle in hay`. -/
def containsSubL (needle hay : Str) : Bool :=
  hay.tails.any (fun t => needle.isPrefixOf t)

/-- Fuel-driven worker for `splitOnL`; `acc` holds the current piece reversed.
With fuel at least the length of the string the fuel never runs out. -/
def splitGo (d : Str) : ℕ → Str → Str → List Str
  | 0, s, acc => [acc.reverse ++ s]
  | fuel + 1, s, acc =>
    match s with
    | [] => [acc.reverse]
    | c :: rest =>
      if d.isPrefixOf (c :: rest) then
        acc.reverse :: splitGo d fuel (List.drop d.length (c :: rest)) []
      else
        splitGo d fuel rest (c :: acc)

/-- Model of Python `s.split(d)` for a non-empty separator `d`: split at each
non-overlapping, leftmost occurrence of `d`. -/
def splitOnL (d s : Str) : List Str :=
  if d = [] then [s] else splitGo d s.length s []

/-- Model of Python `sep.join(parts)`. -/
def intercalateL (sep : Str) : List Str → Str
  | [] => []
  | [p] => p
  | p :: q :: rest => p ++ sep ++ intercalateL sep (q :: rest)

/-- A `suffix.isSuffixOf s`-style test on `String`, via character lists. -/
def endsWithS (suffix s : String) : Bool := suffix.toList.isSuffixOf s.toList

/-- Model of `col.replace("-", "_")`, the CSV-name to database-name map. -/
def replaceDashS (s : String) : String :=
  String.mk (s.toList.map (fun c => if c = '-' then '_' else c))

/-- `String`-level lower-casing. -/
def lowerS (s : String) : String := String.mk (lowerL s.toList)

/-- `String`-level strip. -/
def stripS (s : String) : String := String.mk (stripL s.toList)

/-- `String`-level substring test. -/
def containsSubS (needle hay : String) : Bool := containsSubL needle.toList hay.toList

/-- The value of a digit string, e.g. `digitsVal "407" = 407`. -/
def digitsVal (ds : Str) : ℕ := ds.foldl (fun n c => 10 * n + (c.toNat - '0'.toNat)) 0

/-- A Python float: NaN, a signed infinity, or a finite value modelled as an
exact rational (IEEE-754 rounding is abstracted away; none of the verified
properties depend on it). -/
inductive FloatVal
  | fnan
  | finf (neg : Bool)
  | fin (q : ℚ)
deriving DecidableEq

/-- Parse a decimal mantissa `\d+(\.\d+)?`, `\d+\.` or `\.\d+` at the front of
the string, returning its value and the rest. -/
def parseMantissa (s : Str) : Option (ℚ × Str) :=
  let d1 := s.takeWhile Char.isDigit
  let r1 := s.dropWhile Char.isDigit
  match r1 with
  | '.' :: r2 =>
    let d2 := r2.takeWhile Char.isDigit
    let r3 := r2.dropWhile Char.isDigit
    if d1 = [] && d2 = [] then none
    else some ((digitsVal d1 : ℚ) + (digitsVal d2 : ℚ) / (10 : ℚ) ^ d2.length, r3)
  | _ => if d1 = [] then none else some ((digitsVal d1 : ℚ), r1)

/-- Model of Python `float(str)`: surrounding whitespace, an optional sign,
then `inf`/`infinity`/`nan` (case-insensitive) or a decimal literal with an
optional exponent.  `none` models `ValueError`.  (Digit-group underscores are
not modelled; overflow to infinity is not modelled — values stay exact, which
agrees with the importer's behaviour on every bound it checks.) -/
def parseFloat (s0 : Str) : Option FloatVal :=
  let s := stripL s0
  let signed : Bool × Str :=
    match s with
    | '+' :: r => (false, r)
    | '-' :: r => (true, r)
    | _ => (false, s)
  let neg := signed.1
  let s1 := signed.2
  let low := lowerL s1
  if low = "inf".toList || low = "infinity".toList then some (FloatVal.finf neg)
  else if low = "nan".toList then some FloatVal.fnan
  else
    match parseMantissa s1 with
    | none => none
    | some (m, r) =>
      match r with
      | [] => some (FloatVal.fin (if neg then -m else m))
      | e :: r2 =>
        if e = 'e' || e = 'E' then
          let esigned : Bool × Str :=
            match r2 with
            | '+' :: t => (false, t)
            | '-' :: t => (true, t)
            | _ => (false, r2)
          let ed := esigned.2.takeWhile Char.isDigit
          let r4 := esigned.2.dropWhile Char.isDigit
          if ed = [] || r4 ≠ [] then none
          else
            let ex : ℚ := (10 : ℚ) ^ digitsVal ed
            let v := if esigned.1 then m / ex else m * ex
            some (FloatVal.fin (if neg then -v else v))
        else none

/-- A Python scalar value as it occurs in pandas rows and database rows:
`None`, float NaN (a missing CSV cell), a string, a (finite) number, or a
list of strings (a database enum-array value). -/
inductive PyVal
  | vnone
  | vnan
  | vstr (s : String)
  | vnum (q : ℚ)
  | vlist (l : List String)
deriving DecidableEq

/-- Model of `pd.isna` on scalars: true exactly for `None` and NaN. -/
def isnaB : PyVal → Bool
  | .vnan => true
  | .vnone => true
  | _ => false

/-- `pd.isna` where the argument may be a list: on a list pandas returns an
array whose truth-value test raises, modelled as `none`. -/
def isnaExc : PyVal → Option Bool
  | .vlist _ => none
  | v => some (isnaB v)

/-- Python truthiness of a value (`bool(v)`); NaN is truthy. -/
def truthy : PyVal → Bool
  | .vnone => false
  | .vnan => true
  | .vstr s => s ≠ ""
  | .vnum q => q ≠ 0
  | .vlist l => l ≠ []

/-- The Python test `v == ""`. -/
def eqEmptyStr : PyVal → Bool
  | .vstr s => s = ""
  | _ => false

/-- The Python test `v is None`. -/
def isNoneV : PyVal → Bool
  | .vnone => true
  | _ => false

/-- Model of Python `str(v)`.  For numbers the exact float repr is not
reproduced; no theorem in this file depends on it (the importer's rows read
all cells as strings, and the text-length merge rule only ever compares the
conversions of equal values). -/
def pyStr : PyVal → String
  | .vnone => "None"
  | .vnan => "nan"
  | .vstr s => s
  | .vnum q => toString q
  | .vlist l => String.intercalate ", " l

/-- Model of `float(v)`; `none` models the `ValueError`/`TypeError` the call
sites catch. `float(nan)` is NaN. -/
def pyFloat : PyVal → Option FloatVal
  | .vnum q => some (.fin q)
  | .vnan => some .fnan
  | .vstr s => parseFloat s.toList
  | .vnone => none
  | .vlist _ => none

/-- Model of `float(v) if not pd.isna(v) else 0` as used in the queue merge
(`pd.isna(None)` is true, so `None` also yields `0`); `none` models a raised
and caught conversion error. -/
def floatIfNotNa : PyVal → Option FloatVal
  | .vnan => some (.fin 0)
  | .vnone => some (.fin 0)
  | .vnum q => some (.fin q)
  | .vstr s => parseFloat s.toList
  | .vlist _ => none

/-- The Python comparison `x == 0` on a float (false for NaN and infinities). -/
def eqZeroF : FloatVal → Bool
  | .fin q => q = 0
  | _ => false

/-- The Python comparison `x > 0` on a float (false for NaN). -/
def gtZeroF : FloatVal → Bool
  | .fin q => 0 < q
  | .finf neg => !neg
  | .fnan => false

/-- The vitamin/mineral columns of `clean_numeric_value`, stored as
DECIMAL(10,6). -/
def vitamin_mineral_columns : List String :=
  ["vitamin-a_100g", "vitamin-b6_100g", "vitamin-b12_100g", "vitamin-c_100g",
   "vitamin-d_100g", "vitamin-e_100g", "vitamin-k_100g", "calcium_100g",
   "iron_100g", "magnesium_100g", "potassium_100g", "sodium_100g", "zinc_100g"]

/-- Rounding to `places` decimal places (`round(x, places)`); ties round up
rather than to even, a difference no theorem below depends on. -/
def roundTo (places : ℕ) (q : ℚ) : ℚ :=
  ((round (q * (10 : ℚ) ^ places) : ℤ) : ℚ) / (10 : ℚ) ^ places

/-- The final `abs(v) >= 1e6` sanity check of `clean_numeric_value`. -/
def sanityCeiling (q : ℚ) : Option ℚ := if (1000000 : ℚ) ≤ |q| then none else some q

/-- The column-class precision limits of `clean_numeric_value`: vitamins and
minerals are bounded by 10000 and rounded to 6 places, the other
`_100g`/`nutriscore_score`/`serving_quantity` columns are bounded by 100000
and rounded to 3 places, and every survivor passes the 1e6 sanity check. -/
def applyPrecisionLimits (q : ℚ) : Option String → Option ℚ
  | some col =>
    if col ∈ vitamin_mineral_columns then
      if (10000 : ℚ) ≤ |q| then none else sanityCeiling (roundTo 6 q)
    else if endsWithS "_100g" col || col = "nutriscore_score" || col = "serving_quantity" then
      if (100000 : ℚ) ≤ |q| then none else sanityCeiling (roundTo 3 q)
    else sanityCeiling q
  | none => sanityCeiling q

/-- The string case of `clean_numeric_value` after `str(value).strip()`:
empty and `"nan"` strings, unparseable strings and non-finite parses yield
`None`; finite parses go through the precision limits. -/
def cleanNumericStr (sv : Str) (column_name : Option String) : Option ℚ :=
  if sv = [] || lowerL sv = "nan".toList then none
  else
    match parseFloat sv with
    | some (.fin q) => applyPrecisionLimits q column_name
    | _ => none

/-- Embedding of `data_cleaning.clean_numeric_value`: `None`, NaN, empty and
`"nan"` strings, unparseable strings and non-finite parses all yield `None`
(`Option.none`); finite parses go through the precision limits.  (No call
site passes an array; the list case is totalised to `None`.) -/
def clean_numeric_value (value : PyVal) (column_name : Option String) : Option ℚ :=
  match value with
  | .vnone => none
  | .vnan => none
  | .vlist _ => none
  | .vstr s => if s = "" then none else cleanNumericStr (stripL s.toList) column_name
  | .vnum q => applyPrecisionLimits q column_name

/-- Embedding of `data_cleaning.clean_nutriscore_grade`. -/
def clean_nutriscore_grade (value : PyVal) : Option String :=
  match value with
  | .vnone => none
  | .vnan => none
  | .vlist _ => none
  | v =>
    let sv := lowerL (stripL (pyStr v).toList)
    if sv = [] || sv = "nan".toList then none
    else if sv ∈ ["a", "b", "c", "d", "e"].map String.toList then some (String.mk sv)
    else
      match sv with
      | 'a' :: _ => some "a"
      | 'b' :: _ => some "b"
      | 'c' :: _ => some "c"
      | 'd' :: _ => some "d"
      | 'e' :: _ => some "e"
      | _ => none

/-- The delimiter candidates of `map_allergens_to_enum`, tried in order; the
first one occurring in the string wins. -/
def allergen_delimiters : List String :=
  [",", ";", "|", "/", "+", "&", " and ", " et ", " und "]

/-- The prefixes stripped from each allergen fragment. -/
def allergen_prefixes : List String :=
  ["en:", "de:", "fr:", "es:", "it:", "contains:", "contains ", "enthält"]

/-- The non-allergen stoplist: a fragment containing any of these is skipped. -/
def allergen_skip_terms : List String :=
  ["none", "nil", "n/a", "no known allergens", "keine", "warning", "may contain",
   "traces", "produced in", "manufactured on", "water", "salt", "sugar"]
/-- The allergen keyword table of `allergen_mapping.map_allergens_to_enum`,
transcribed verbatim from the source (enum value, match patterns). -/
def allergen_mapping : List (String × List String) :=
  [("MILK", ["milk", "milch", "lait", "leite", "mleko", "latte", "mléko", "mjölk", "kuhmilch", "cow milk", "cow\x27s milk", "dairy", "dairy products", "milk products", "milk derivatives", "milkfat", "butter", "butterfat", "cream", "cheese", "whey", "casein", "lactose", "yogurt", "yoghurt", "cheddar", "mozzarella", "emmental", "milk protein", "milk solids", "cultured milk", "pasteurized milk", "nonfat milk", "whole milk", "milchprodukte", "milchbestandteile", "milcheiweiß", "milcheiweiss"]),
   ("EGGS", ["eggs", "egg", "eier", "ovo", "uova", "jajka", "eieren", "œuf", "hühnerei", "egg white", "egg powder", "eigelb", "albumin"]),
   ("WHEAT", ["wheat", "weizen", "blé", "trigo", "wheat flour", "wheat gluten", "weizenmehl", "wheat starch", "wheat derivatives", "durum wheat", "wheat protein", "weizenprotein", "hartweizengrieß"]),
   ("GLUTEN", ["gluten", "glutenhaltiges getreide", "cereals containing gluten", "céréales contenant du gluten", "gluten-containing cereals"]),
   ("SOYBEANS", ["soy", "soja", "soya", "soybeans", "sojabohnen", "soybean", "soy protein", "soy lecithin", "sojaprotein", "sojaöl"]),
   ("TREE_NUTS", ["tree nuts", "nuts", "nüsse", "noix", "fruits à coque", "frutta a guscio", "tree nut", "nut allergy"]),
   ("ALMONDS", ["almonds", "almond", "mandeln", "amandes", "mandorle", "almendras", "almond butter", "almond flour", "almond milk"]),
   ("CASHEWS", ["cashews", "cashew", "cashew nuts", "cashew-nüsse", "cashewkeme"]),
   ("HAZELNUTS", ["hazelnuts", "hazelnut", "haselnüsse", "haselnuss", "hazlenut"]),
   ("WALNUTS", ["walnuts", "walnut", "walnüsse", "wallnuts", "black walnuts"]),
   ("PEANUTS", ["peanuts", "peanut", "erdnüsse", "arachides", "pinda", "peanut butter", "peanut oil", "groundnuts"]),
   ("FISH", ["fish", "fisch", "poisson", "pescado", "pesce", "vis", "anchovy", "anchovies", "sardines", "tuna", "salmon", "hoki", "pollock", "bonito", "herring", "flying fish"]),
   ("SHELLFISH", ["shellfish", "crustacean", "shrimp", "prawns", "crab", "lobster", "crayfish", "garnelen", "molluscs", "mollusks", "oyster", "mussel", "clam", "scallop"]),
   ("SESAME", ["sesame", "sesame seeds", "sésame", "sesamsaat", "graines de sésame", "white sesame seeds"]),
   ("MUSTARD", ["mustard", "senf", "moutarde", "mustard seed", "mustard seeds", "gelbsenfsaat", "braunsenfsaat"]),
   ("CELERY", ["celery", "sellerie", "céleri", "celery powder", "schnittselerie", "schnittsellerie"]),
   ("SULPHITES", ["sulphites", "sulfites", "sulfit", "sulfur dioxide", "metabisulphite", "sodium metabisulphite", "kaliummetabisulfit", "ammoniumsulfit", "natriummetabisulfit"]),
   ("COCONUT", ["coconut", "coconuts", "noix de coco", "coconut oil"]),
   ("ALCOHOL", ["alcohol", "alkohol", "ethanol"]),
   ("PHENYLALANINE", ["phenylalanine", "phenylalalnine", "phenilananin", "phenylalaninquelle"]),
   ("LUPIN", ["lupin", "lupine", "lupins"]),
   ("CORN", ["corn", "maize", "mais", "corn starch", "corn flour", "yellow corn", "sweet corn"]),
   ("YEAST", ["yeast", "hefe", "levure", "baker yeast", "nutritional yeast"]),
   ("GELATIN", ["gelatin", "gelatine", "beef gelatin", "pork gelatin"]),
   ("KIWI", ["kiwi", "kiwi fruit"]),
   ("PORK", ["pork", "schwein", "porc", "pig", "ham", "bacon", "pork gelatin", "lard"]),
   ("BEEF", ["beef", "rind", "bœuf", "cow", "cattle", "beef gelatin"]),
   ("SULFUR_DIOXIDE", ["sulfur dioxide", "sulphur dioxide", "so2", "e220"])]

/-- The keyword table with patterns lower-cased once (the source lower-cases
each pattern at match time, which is equivalent). -/
def allergen_mappingL : List (String × List Str) :=
  allergen_mapping.map (fun ep => (ep.1, ep.2.map (fun p => lowerL p.toList)))

/-- Strip the locale/"contains" prefixes from a cleaned fragment, each
candidate tried once in order, re-stripping whitespace after each removal. -/
def stripAllergenPrefixes (cp : Str) : Str :=
  allergen_prefixes.foldl
    (fun cur pre => if pre.toList.isPrefixOf cur then stripL (cur.drop pre.length) else cur)
    cp

/-- Process one delimiter-separated fragment of an allergen string: clean it,
drop it if too short or on the stoplist, and otherwise collect every enum
value one of whose patterns matches by bidirectional substring containment
(pattern in fragment or fragment in pattern). -/
def processFragment (part : Str) : List String :=
  let cp := stripAllergenPrefixes (lowerL (stripL part))
  if cp.length < 3 then []
  else if allergen_skip_terms.any (fun t => containsSubL t.toList cp) then []
  else
    (allergen_mappingL.filter
      (fun ep => ep.2.any (fun pat => containsSubL pat cp || containsSubL cp pat))).map
      Prod.fst

/-- Append the newly found enum values to the accumulator, dropping ones
already present (the source accumulates into a `set`). -/
def dedupAppend (acc new : List String) : List String :=
  acc ++ new.filter (fun t => !(acc.contains t))

/-- Split on the first delimiter (in candidate order) that occurs in the
string; if none occurs the whole string is a single fragment. -/
def splitFirstDelim (s : Str) : List Str :=
  match allergen_delimiters.find? (fun d => containsSubL d.toList s) with
  | some d => splitOnL d.toList s
  | none => [s]

/-- Embedding of `allergen_mapping.map_allergens_to_enum` on a string.  The
Python function accumulates matches in a `set` and returns `list(set)`, whose
iteration order is unspecified; here matches accumulate in deterministic
encounter order and theorems only use the result's membership. -/
def mapAllergensStr (al : Str) : List String :=
  if al = [] || stripL al = [] then []
  else (splitFirstDelim al).foldl (fun acc p => dedupAppend acc (processFragment p)) []

/-- `map_allergens_to_enum` on a `String` value. -/
def mapAllergensS (s : String) : List String := mapAllergensStr s.toList

/-- `map_allergens_to_enum` on an arbitrary value: `None` and NaN are caught
by the `pd.isna` guard and yield `[]`, as does a falsy number via `not`;
other non-strings raise (`.strip()` on a number, `pd.isna` on an array),
modelled as `none`. -/
def map_allergens_to_enum : PyVal → Option (List String)
  | .vnone => some []
  | .vnan => some []
  | .vstr s => some (mapAllergensS s)
  | .vnum q => if q = 0 then some [] else none
  | .vlist _ => none

/-- The queue merge's rendering of a combined allergen set back to raw text:
`", ".join(f"en:" + allergen.lower())` over the combined values. -/
def renderTags (tags : List String) : String :=
  String.mk (intercalateL ", ".toList (tags.map (fun a => "en:".toList ++ lowerL a.toList)))

/-- A pandas/database row: a total map from column name to value. -/
abbrev Row := String → PyVal

/-- Functional update of one cell of a row. -/
def updateRow (r : Row) (c : String) (v : PyVal) : Row :=
  fun x => if x = c then v else r x

/-- Embedding of `data_processing.should_update_field`: never adopt a
null/empty new value; always adopt over a null/empty existing value; for
`*_100g`/`nutriscore_score` columns adopt exactly when the existing value
converts to zero and the new one to a positive number (conversion errors keep
the existing value); for the designated text columns adopt a strictly longer
rendering; otherwise keep the existing value. -/
def should_update_field (existing_value new_value : PyVal) (column_name : String) : Bool :=
  if isNoneV new_value || eqEmptyStr new_value then false
  else if isNoneV existing_value || eqEmptyStr existing_value then true
  else if endsWithS "_100g" column_name || column_name = "nutriscore_score" then
    match (if isNoneV existing_value then some (FloatVal.fin 0) else pyFloat existing_value),
          (if isNoneV new_value then some (FloatVal.fin 0) else pyFloat new_value) with
    | some e, some n => eqZeroF e && gtZeroF n
    | _, _ => false
  else if ["brands", "categories", "allergens"].contains column_name then
    decide ((pyStr new_value).length > (pyStr existing_value).length)
  else false

/-- The fixed nutrient fields of `merge_queue_items`' numeric rule. -/
def queue_numeric_fields : List String :=
  ["energy-kcal_100g", "proteins_100g", "carbohydrates_100g", "fat_100g"]

/-- The allergens branch of `merge_queue_items`: map each side to enum values
(a falsy side contributes the empty set), combine and deduplicate, and store
the combined set rendered back to raw `"en:..."` text, or `None` when the
combination is empty.  `none` models a raised exception (a truthy non-string
side that is not NaN reaches `.strip()`/array-`isna` and raises). -/
def queueAllergenMerge (ev nv : PyVal) : Option PyVal :=
  match (if truthy ev then map_allergens_to_enum ev else some []),
        (if truthy nv then map_allergens_to_enum nv else some []) with
  | some ea, some na =>
    let combined := dedupAppend ea na
    some (if combined = [] then PyVal.vnone else PyVal.vstr (renderTags combined))
  | _, _ => none

/-- The `elif` chain of `merge_queue_items` past the adopt-if-missing rule:
the zero-versus-positive rule for the fixed nutrient fields (conversion
failures are caught and keep the existing value); the allergens union,
re-rendered to text; the longer-text rule for `brands`/`categories`; default
keep. -/
def queueMergeCellRest (ev nv : PyVal) (col : String) (target_columns : List String) :
    Option (Option PyVal) :=
  if queue_numeric_fields.contains col && target_columns.contains col then
    some
      (match floatIfNotNa ev, floatIfNotNa nv with
       | some e, some n => if eqZeroF e && gtZeroF n then some nv else none
       | _, _ => none)
  else if col = "allergens" then
    match queueAllergenMerge ev nv with
    | none => none
    | some v => some (some v)
  else if ["brands", "categories"].contains col then
    some (if (pyStr nv).length > (pyStr ev).length then some nv else none)
  else some none

/-- One column of `merge_queue_items`: the action taken for column `col`
given the existing and new cell values.  Outer `none` models a raised
exception; inner `none` means keep the existing value; `some v` assigns `v`.
The adopt-if-missing condition is checked first; in every other case the
`elif` chain `queueMergeCellRest` decides. -/
def queue_merge_cell (ev nv : PyVal) (col : String) (target_columns : List String) :
    Option (Option PyVal) :=
  match isnaExc ev with
  | none => none
  | some be =>
    if be || isNoneV ev || eqEmptyStr ev then
      match isnaExc nv with
      | none => none
      | some bn =>
        if !(bn || isNoneV nv || eqEmptyStr nv) then some (some nv)
        else queueMergeCellRest ev nv col target_columns
    else queueMergeCellRest ev nv col target_columns

/-- Apply a merge action to the current value of a cell. -/
def applyAct (act : Option (Option PyVal)) (cur : PyVal) : PyVal :=
  match act with
  | some (some v) => v
  | _ => cur

/-- The column loop of `merge_queue_items`: process each CSV column in order,
applying its merge action to the row under construction; a raised exception
(`none` from the cell) aborts the whole merge. -/
def mergeQueueGo (existing_row new_row : Row) (target_columns : List String) :
    List String → Row → Option Row
  | [], m => some m
  | col :: rest, m =>
    match queue_merge_cell (existing_row col) (new_row col) col target_columns with
    | none => none
    | some act =>
      mergeQueueGo existing_row new_row target_columns rest
        (match act with
         | some v => updateRow m col v
         | none => m)

/-- Embedding of `duplicate_handling.merge_queue_items`: start from a copy of
the existing queued row and process each CSV column in order; `none` models a
raised exception. -/
def merge_queue_items (existing_row new_row : Row) (csv_columns : List String)
    (target_columns : List String) : Option Row :=
  mergeQueueGo existing_row new_row target_columns csv_columns existing_row

/-- The allergens coercion of `merge_single_duplicate`: a non-empty string is
mapped through the allergen table, a falsy value becomes the empty list, a
list passes through unchanged; a truthy NaN or nonzero number survives to the
later list concatenation and raises, modelled as `none`. -/
def dbCoerceAllergens : PyVal → Option (List String)
  | .vstr s => if s ≠ "" then some (mapAllergensS s) else some []
  | .vlist l => some l
  | .vnone => some []
  | .vnum q => if q = 0 then some [] else none
  | .vnan => none

/-- One column of `merge_single_duplicate` (and of
`convert_raw_row_to_db_format`, which applies the same per-column logic):
given the existing database value (read under the underscored name) and the
new raw value, the action on the merged row.  The primary key is skipped;
allergens are combined as deduplicated lists whenever either side is
non-empty; other columns are cleaned (numeric, grade, or stripped text) and
adopted exactly when `should_update_field` says so. -/
def db_merge_cell (ev nv : PyVal) (col : String) : Option (Option PyVal) :=
  if col = "code" then some none
  else if col = "allergens" then
    match dbCoerceAllergens ev, dbCoerceAllergens nv with
    | some ea, some na =>
      some (if ea ≠ [] || na ≠ [] then some (PyVal.vlist (dedupAppend ea na)) else none)
    | _, _ => none
  else
    let cleaned : PyVal :=
      if col = "nutriscore_score" || endsWithS "_100g" col then
        match clean_numeric_value nv (some col) with
        | some q => PyVal.vnum q
        | none => PyVal.vnone
      else if col = "nutriscore_grade" then
        match clean_nutriscore_grade nv with
        | some g => PyVal.vstr g
        | none => PyVal.vnone
      else if !(isnaB nv) && !(isNoneV nv) then
        if stripS (pyStr nv) = "" then PyVal.vnone else PyVal.vstr (stripS (pyStr nv))
      else PyVal.vnone
    some (if should_update_field ev cleaned col then some cleaned else none)

/-- The column loop of `merge_single_duplicate`: apply each column's action
to the row under construction, writing under the underscored names; a raised
exception aborts the whole merge. -/
def mergeDbGo (existing_row new_row : Row) : List String → Row → Option Row
  | [], m => some m
  | col :: rest, m =>
    match db_merge_cell (existing_row (replaceDashS col)) (new_row col) col with
    | none => none
    | some act =>
      mergeDbGo existing_row new_row rest
        (match act with
         | some v => updateRow m (replaceDashS col) v
         | none => m)

/-- Embedding of `duplicate_handling.merge_single_duplicate` via its column
loop `mergeDbGo`: merge the new raw row into a copy of the existing database
row, writing results under the underscored column names. -/
def merge_single_duplicate (existing_row new_row : Row) (target_columns : List String) :
    Option Row :=
  mergeDbGo existing_row new_row target_columns existing_row

/-- The target column list of `database.get_table_columns`. -/
def get_table_columns : List String :=
  ["code", "product_name", "generic_name", "brands", "categories",
   "serving_quantity", "serving_measurement",
   "allergens", "food_groups", "nutriscore_score", "nutriscore_grade",
   "energy-kcal_100g", "carbohydrates_100g", "cholesterol_100g", "proteins_100g",
   "sugars_100g", "added-sugars_100g",
   "fat_100g", "saturated-fat_100g", "monounsaturated-fat_100g",
   "polyunsaturated-fat_100g", "omega-3-fat_100g", "omega-6-fat_100g",
   "omega-9-fat_100g", "trans-fat_100g",
   "fiber_100g", "soluble-fiber_100g", "insoluble-fiber_100g",
   "vitamin-a_100g", "vitamin-b6_100g", "vitamin-b12_100g", "vitamin-c_100g",
   "vitamin-d_100g", "vitamin-e_100g", "vitamin-k_100g",
   "calcium_100g", "iron_100g", "magnesium_100g", "potassium_100g",
   "sodium_100g", "zinc_100g"]

/-- Rounding to `n` decimal places moves a value by at most 1, so
class-bounded values stay far below the 1e6 sanity ceiling. -/
theorem roundTo_abs_le (n : ℕ) (q : ℚ) : |roundTo n q| ≤ |q| + 1 := by
  have hpow : (0 : ℚ) < (10 : ℚ) ^ n := by positivity
  have hpow1 : (1 : ℚ) ≤ (10 : ℚ) ^ n := one_le_pow₀ (by norm_num)
  have h2 := abs_sub_round (q * (10 : ℚ) ^ n)
  have h3 : |((round (q * (10 : ℚ) ^ n) : ℤ) : ℚ)| - |q * (10 : ℚ) ^ n| ≤
      |q * (10 : ℚ) ^ n - ((round (q * (10 : ℚ) ^ n) : ℤ) : ℚ)| := by
    rw [abs_sub_comm]
    exact abs_sub_abs_le_abs_sub _ _
  have h4 : |roundTo n q| = |((round (q * (10 : ℚ) ^ n) : ℤ) : ℚ)| / (10 : ℚ) ^ n := by
    rw [roundTo, abs_div, abs_of_pos hpow]
  rw [h4, div_le_iff₀ hpow]
  have h5 : |q * (10 : ℚ) ^ n| = |q| * (10 : ℚ) ^ n := by
    rw [abs_mul, abs_of_pos hpow]
  have h6 := abs_nonneg q
  nlinarith

/-- C3: `clean_numeric_value` parses the value to a decimal and returns
`None` for missing, empty, NaN, infinite or unparseable inputs without
raising; returns `None` for any magnitude at or above the column's class
bound (10000 for vitamin/mineral columns, 100000 for the other
`_100g`/`nutriscore_score`/`serving_quantity` columns) instead of clamping;
returns `None` at or above the global 1e6 ceiling regardless of class; and
otherwise returns the value rounded to the class's decimal places (6 for
vitamins/minerals, 3 for the macro-nutrient class). -/
theorem c3_clean_numeric_value_spec :
    (∀ col, clean_numeric_value PyVal.vnone col = none
        ∧ clean_numeric_value PyVal.vnan col = none
        ∧ clean_numeric_value (PyVal.vstr "") col = none)
    ∧ (∀ s col, (parseFloat (stripL s.toList) = none
          ∨ parseFloat (stripL s.toList) = some FloatVal.fnan
          ∨ parseFloat (stripL s.toList) = some (FloatVal.finf false)
          ∨ parseFloat (stripL s.toList) = some (FloatVal.finf true)) →
        clean_numeric_value (PyVal.vstr s) col = none)
    ∧ (∀ s col q, s ≠ "" → stripL s.toList ≠ [] →
        lowerL (stripL s.toList) ≠ "nan".toList →
        parseFloat (stripL s.toList) = some (FloatVal.fin q) →
        clean_numeric_value (PyVal.vstr s) col = clean_numeric_value (PyVal.vnum q) col)
    ∧ (∀ q col, col ∈ vitamin_mineral_columns →
        ((10000 : ℚ) ≤ |q| → clean_numeric_value (PyVal.vnum q) (some col) = none)
        ∧ (|q| < 10000 → clean_numeric_value (PyVal.vnum q) (some col) = some (roundTo 6 q)))
    ∧ (∀ q col, col ∉ vitamin_mineral_columns →
        (endsWithS "_100g" col || col = "nutriscore_score" || col = "serving_quantity") = true →
        ((100000 : ℚ) ≤ |q| → clean_numeric_value (PyVal.vnum q) (some col) = none)
        ∧ (|q| < 100000 → clean_numeric_value (PyVal.vnum q) (some col) = some (roundTo 3 q)))
    ∧ (∀ q col, (1000000 : ℚ) ≤ |q| → clean_numeric_value (PyVal.vnum q) col = none) := by
  refine ⟨fun col => ⟨rfl, rfl, rfl⟩, ?_, ?_, ?_, ?_, ?_⟩
  · intro s col h
    by_cases hs : s = ""
    · subst hs; rfl
    · simp only [clean_numeric_value]
      rw [if_neg hs]
      generalize stripL s.toList = sv at h
      simp only [cleanNumericStr]
      rcases h with h | h | h | h <;> simp [h]
  · intro s col q hs hsv hnan hp
    simp only [clean_numeric_value]
    rw [if_neg hs]
    generalize stripL s.toList = sv at hsv hnan hp
    simp only [cleanNumericStr]
    have hguard : ¬(decide (sv = []) || decide (lowerL sv = "nan".toList)) = true := by
      simp only [Bool.or_eq_true, decide_eq_true_eq, not_or]
      exact ⟨hsv, hnan⟩
    rw [if_neg hguard, hp]
  · intro q col hmem
    refine ⟨fun hge => ?_, fun hlt => ?_⟩
    · show applyPrecisionLimits q (some col) = none
      simp only [applyPrecisionLimits]
      rw [if_pos hmem, if_pos hge]
    · show applyPrecisionLimits q (some col) = some (roundTo 6 q)
      simp only [applyPrecisionLimits]
      rw [if_pos hmem, if_neg (not_le.mpr hlt)]
      unfold sanityCeiling
      have hb := roundTo_abs_le 6 q
      rw [if_neg (by push_neg; linarith)]
  · intro q col hmem hcls
    refine ⟨fun hge => ?_, fun hlt => ?_⟩
    · show applyPrecisionLimits q (some col) = none
      simp only [applyPrecisionLimits]
      rw [if_neg hmem, if_pos hcls, if_pos hge]
    · show applyPrecisionLimits q (some col) = some (roundTo 3 q)
      simp only [applyPrecisionLimits]
      rw [if_neg hmem, if_pos hcls, if_neg (not_le.mpr hlt)]
      unfold sanityCeiling
      have hb := roundTo_abs_le 3 q
      rw [if_neg (by push_neg; linarith)]
  · intro q col h
    match col with
    | none =>
      show sanityCeiling q = none
      unfold sanityCeiling
      rw [if_pos h]
    | some c =>
      show applyPrecisionLimits q (some c) = none
      simp only [applyPrecisionLimits]
      by_cases hmem : c ∈ vitamin_mineral_columns
      · rw [if_pos hmem, if_pos (by linarith)]
      · rw [if_neg hmem]
        by_cases hcls :
            (endsWithS "_100g" c || c = "nutriscore_score" || c = "serving_quantity") = true
        · rw [if_pos hcls, if_pos (by linarith)]
        · rw [if_neg hcls]
          unfold sanityCeiling
          rw [if_pos h]

/-- Witness for C3: the spec scenario value 15000 in a vitamin column is
nulled, and an in-bounds macro-nutrient value is rounded and kept. -/
theorem c3_clean_numeric_value_spec_witness :
    clean_numeric_value (PyVal.vnum 15000) (some "vitamin-a_100g") = none
    ∧ clean_numeric_value (PyVal.vnum (25/2)) (some "proteins_100g") = some (roundTo 3 (25/2)) := by
  constructor
  · exact (c3_clean_numeric_value_spec.2.2.2.1 15000 "vitamin-a_100g" (by decide)).1
      (by rw [abs_of_pos] <;> norm_num)
  · exact (c3_clean_numeric_value_spec.2.2.2.2.1 (25/2) "proteins_100g" (by decide)
      (by decide)).2 (by rw [abs_of_pos] <;> norm_num)

/-- The first row of the C4 scenario: `proteins_100g = "0"`. -/
def c4_first_row : Row := fun c => if c = "proteins_100g" then PyVal.vstr "0" else PyVal.vnan

/-- The second row of the C4 scenario: `proteins_100g = "12.5"`. -/
def c4_second_row : Row := fun c => if c = "proteins_100g" then PyVal.vstr "12.5" else PyVal.vnan

/-- C4: for `*_100g`/`nutriscore_score` columns with both sides present,
`should_update_field` adopts the new value exactly when the existing value
converts to zero and the new one to a positive number (so it retains the
pending value in every other numeric case); and two queued rows sharing a
name key with `proteins_100g` `"0"` and `"12.5"` merge to `"12.5"`. -/
theorem c4_zero_positive_merge :
    (∀ e n col fe fn,
        (endsWithS "_100g" col || col = "nutriscore_score") = true →
        isNoneV e = false → eqEmptyStr e = false →
        isNoneV n = false → eqEmptyStr n = false →
        pyFloat e = some fe → pyFloat n = some fn →
        should_update_field e n col = (eqZeroF fe && gtZeroF fn))
    ∧ (merge_queue_items c4_first_row c4_second_row ["proteins_100g"] get_table_columns).map
        (fun m => m "proteins_100g") = some (PyVal.vstr "12.5") := by
  constructor
  · intro e n col fe fn hcls hen hee hnn hne hfe hfn
    simp only [should_update_field]
    rw [if_neg (by simp [hen, hee, hnn, hne]), if_neg (by simp [hen, hee, hnn, hne]),
      if_pos hcls, if_neg (by simp [hen]), if_neg (by simp [hnn]), hfe, hfn]
  · decide!

/-- Witness for C4: a pending zero adopts a positive newcomer, and a pending
positive value is retained against a different positive newcomer. -/
theorem c4_zero_positive_merge_witness :
    should_update_field (PyVal.vnum 0) (PyVal.vnum (25/2)) "proteins_100g" = true
    ∧ should_update_field (PyVal.vnum 7) (PyVal.vnum (25/2)) "proteins_100g" = false := by
  constructor
  · rw [c4_zero_positive_merge.1 (PyVal.vnum 0) (PyVal.vnum (25/2)) "proteins_100g"
      (FloatVal.fin 0) (FloatVal.fin (25/2)) (by decide) rfl rfl rfl rfl rfl rfl]
    decide!
  · rw [c4_zero_positive_merge.1 (PyVal.vnum 7) (PyVal.vnum (25/2)) "proteins_100g"
      (FloatVal.fin 7) (FloatVal.fin (25/2)) (by decide) rfl rfl rfl rfl rfl rfl]
    decide!

/-- C10 (amended): `should_update_field` never adopts a `None` or empty-string
new value, so merges routed through it never replace a present value by an
absent one.  (The queue merge's allergens branch does not go through it; see
the counterexample.) -/
theorem c10_no_update_to_empty :
    ∀ e n col, n = PyVal.vnone ∨ n = PyVal.vstr "" → should_update_field e n col = false := by
  intro e n col h
  rcases h with h | h <;> subst h <;> simp [should_update_field, isNoneV, eqEmptyStr]

/-- Witness for C10: a present brand is not overwritten by `None`. -/
theorem c10_no_update_to_empty_witness :
    should_update_field (PyVal.vstr "brandname") PyVal.vnone "brands" = false :=
  c10_no_update_to_empty (PyVal.vstr "brandname") PyVal.vnone "brands" (Or.inl rfl)

/-- The C10 counterexample's pending row: a non-empty allergens string that
maps to no known allergen ("water" is on the stoplist). -/
def c10_pending_row : Row := fun c => if c = "allergens" then PyVal.vstr "water" else PyVal.vnan

/-- The C10 counterexample's new row: every cell missing. -/
def c10_new_row : Row := fun _ => PyVal.vnan

/-- Counterexample to C10 as stated: the queue merge replaces the non-empty
pending allergens value `"water"` by `None` (its allergens branch bypasses
`should_update_field` and stores `None` whenever the combined mapped set is
empty). -/
theorem c10_counterexample_queue_merge_nulls_field :
    (merge_queue_items c10_pending_row c10_new_row ["allergens"] get_table_columns).map
        (fun m => m "allergens") = some PyVal.vnone
    ∧ c10_pending_row "allergens" = PyVal.vstr "water"
    ∧ PyVal.vstr "water" ≠ PyVal.vnone ∧ PyVal.vstr "water" ≠ PyVal.vstr "" := by
  refine ⟨by decide!, rfl, by decide, by decide⟩

/-- Pointwise description of the queue-merge column loop: since every cell
action depends only on the two input rows, the final value of a column is its
action applied to the base row (or the base value for untouched columns). -/
theorem mergeQueueGo_apply (er nr : Row) (tcols : List String) :
    ∀ (cols : List String) (base m : Row),
      mergeQueueGo er nr tcols cols base = some m →
      ∀ x, m x =
        if x ∈ cols then applyAct (queue_merge_cell (er x) (nr x) x tcols) (base x)
        else base x := by
  intro cols
  induction cols with
  | nil =>
    intro base m hm x
    simp only [mergeQueueGo, Option.some.injEq] at hm
    subst hm
    simp
  | cons c rest ih =>
    intro base m hm x
    simp only [mergeQueueGo] at hm
    cases hact : queue_merge_cell (er c) (nr c) c tcols with
    | none => rw [hact] at hm; cases hm
    | some act =>
      rw [hact] at hm
      have hpt := ih _ m hm x
      by_cases hxc : x = c
      · subst hxc
        rw [if_pos (List.mem_cons_self x rest)]
        by_cases hxr : x ∈ rest
        · rw [if_pos hxr] at hpt
          rw [hpt, hact]
          cases act with
          | none => rfl
          | some v => simp [applyAct, updateRow]
        · rw [if_neg hxr] at hpt
          rw [hpt, hact]
          cases act with
          | none => rfl
          | some v => simp [applyAct, updateRow]
      · have hmem : (x ∈ c :: rest) ↔ (x ∈ rest) := by
          simp [List.mem_cons, hxc]
        have hbase :
            (match act with | some v => updateRow base c v | none => base) x = base x := by
          cases act with
          | none => rfl
          | some v => simp [updateRow, hxc]
        by_cases hxr : x ∈ rest
        · rw [if_pos (hmem.mpr hxr)]
          rw [if_pos hxr] at hpt
          rw [hpt, hbase]
        · rw [if_neg (fun hc => hxr (hmem.mp hc))]
          rw [if_neg hxr] at hpt
          rw [hpt, hbase]

/-- For `*_100g`-style columns, a cell can never be both zero and positive. -/
theorem eqZeroF_and_gtZeroF (f : FloatVal) : (eqZeroF f && gtZeroF f) = false := by
  cases f with
  | fnan => rfl
  | finf neg => rfl
  | fin q =>
    by_cases hq : q = 0
    · subst hq; simp [eqZeroF, gtZeroF]
    · simp [eqZeroF, hq]

/-- Merging a cell with itself takes no action on any column other than
`allergens`: the adopt-if-missing rule cannot fire (both sides are equally
missing), the zero-versus-positive rule cannot fire (a value is never both),
and the longer-text rule cannot fire (equal lengths). -/
theorem queue_merge_cell_self_keep (v : PyVal) (x : String) (tcols : List String)
    (hx : x ≠ "allergens") :
    applyAct (queue_merge_cell v v x tcols) v = v := by
  have hrest : queueMergeCellRest v v x tcols = some none := by
    unfold queueMergeCellRest
    by_cases hn : (queue_numeric_fields.contains x && tcols.contains x) = true
    · rw [if_pos hn]
      cases hf : floatIfNotNa v with
      | none => simp [hf]
      | some f => simp [hf, eqZeroF_and_gtZeroF]
    · rw [if_neg hn, if_neg hx]
      by_cases hb : (["brands", "categories"].contains x) = true
      · rw [if_pos hb]
        simp
      · rw [if_neg hb]
  have hcell : queue_merge_cell v v x tcols = some none
      ∨ queue_merge_cell v v x tcols = none := by
    cases v with
    | vlist l => right; rfl
    | vnone => left; rw [← hrest]; rfl
    | vnan => left; rw [← hrest]; rfl
    | vnum q => left; rw [← hrest]; rfl
    | vstr s =>
      left
      rw [← hrest]
      unfold queue_merge_cell
      by_cases hs : s = ""
      · subst hs; rfl
      · simp [isnaExc, isnaB, isNoneV, eqEmptyStr, hs]
  rcases hcell with h | h <;> rw [h] <;> rfl

/-- C2 (amended): merging a queue entry into itself leaves every column other
than `allergens` unchanged.  Idempotence fails at the allergens column, which
is re-normalised to the rendering of its own mapped tag set and so can differ
from the raw original (see the counterexample). -/
theorem c2_self_merge_preserves_other_fields :
    ∀ (a : Row) (csv_columns target_columns : List String) (m : Row),
      merge_queue_items a a csv_columns target_columns = some m →
      ∀ x, x ≠ "allergens" → m x = a x := by
  intro a csv tcols m hm x hx
  have hpt := mergeQueueGo_apply a a tcols csv a m hm x
  rw [hpt]
  by_cases hmem : x ∈ csv
  · rw [if_pos hmem]
    exact queue_merge_cell_self_keep (a x) x tcols hx
  · rw [if_neg hmem]

/-- The C2 queue entry: raw allergens text `"cheddar"`, brand `"x"`. -/
def c2_entry : Row := fun c =>
  if c = "allergens" then PyVal.vstr "cheddar"
  else if c = "brands" then PyVal.vstr "x"
  else PyVal.vnan

/-- The result of merging the C2 entry into itself: only the allergens cell
changes, to the rendering of its mapped tag set. -/
def c2_merged : Row := updateRow c2_entry "allergens" (PyVal.vstr "en:milk")

/-- Witness for C2: on the concrete entry, the self-merge leaves the brands
cell untouched. -/
theorem c2_self_merge_preserves_other_fields_witness :
    c2_merged "brands" = c2_entry "brands" :=
  c2_self_merge_preserves_other_fields c2_entry ["allergens", "brands"] get_table_columns
    c2_merged (by rfl) "brands" (by decide)

/-- Counterexample to C2 as stated: merging an entry with raw allergens text
`"cheddar"` into itself rewrites the allergens field to the rendered form
`"en:milk"` of its mapped tag set, so self-merge does not return the entry
unchanged in every field. -/
theorem c2_counterexample_self_merge_changes_allergens :
    (merge_queue_items c2_entry c2_entry ["allergens", "brands"] get_table_columns).map
        (fun m => m "allergens") = some (PyVal.vstr "en:milk")
    ∧ c2_entry "allergens" = PyVal.vstr "cheddar"
    ∧ PyVal.vstr "en:milk" ≠ PyVal.vstr "cheddar" := by
  refine ⟨by decide!, rfl, by decide⟩

/-- The rendered fragment of one allergen tag, as produced by `renderTags`. -/
def tagFragment (t : String) : Str := "en:".toList ++ lowerL t.toList

/-- A tag survives the rendered round trip when re-processing its own
rendered fragment finds it again. -/
def fragOK (t : String) : Bool := (processFragment (tagFragment t)).contains t

/-- No delimiter candidate occurs inside the tag's rendered fragment. -/
def tagNoDelim (t : String) : Bool :=
  allergen_delimiters.all (fun d => !(containsSubL d.toList (tagFragment t)))

/-- A single-character needle is contained exactly when the character occurs. -/
theorem containsSubL_singleton (c : Char) (s : Str) :
    containsSubL [c] s = true ↔ c ∈ s := by
  induction s with
  | nil => simp [containsSubL, List.tails, List.isPrefixOf]
  | cons x r ih =>
    simp only [containsSubL, List.tails, List.any_cons] at ih ⊢
    have hpre : [c].isPrefixOf (x :: r) = (c == x) := by
      show (c == x && List.isPrefixOf [] r) = (c == x)
      rw [List.isPrefixOf_nil_left, Bool.and_true]
    rw [hpre, Bool.or_eq_true_iff, ih]
    simp [List.mem_cons]

/-- Splitting with enough fuel does not depend on the exact fuel. -/
theorem splitGo_fuel_irrel (d : Str) (hd : d ≠ []) :
    ∀ (k : ℕ) (s : Str) (n m : ℕ) (acc : Str), s.length ≤ k → s.length ≤ n →
      s.length ≤ m → splitGo d n s acc = splitGo d m s acc := by
  intro k
  induction k with
  | zero =>
    intro s n m acc hk hn hm
    have hs : s = [] := List.length_eq_zero.mp (Nat.le_zero.mp hk)
    subst hs
    cases n <;> cases m <;> simp [splitGo]
  | succ k ih =>
    intro s n m acc hk hn hm
    cases s with
    | nil => cases n <;> cases m <;> simp [splitGo]
    | cons c rest =>
      cases n with
      | zero => simp at hn
      | succ n' =>
        cases m with
        | zero => simp at hm
        | succ m' =>
          simp only [splitGo]
          by_cases hp : d.isPrefixOf (c :: rest) = true
          · rw [if_pos hp, if_pos hp]
            have hd1 : 1 ≤ d.length := by
              cases d with
              | nil => exact absurd rfl hd
              | cons a b => simp
            have hlen : (List.drop d.length (c :: rest)).length ≤ rest.length := by
              rw [List.length_drop]
              simp only [List.length_cons]
              omega
            have hrk : rest.length ≤ k := by
              simp only [List.length_cons] at hk
              omega
            have hrn : rest.length ≤ n' := by
              simp only [List.length_cons] at hn
              omega
            have hrm : rest.length ≤ m' := by
              simp only [List.length_cons] at hm
              omega
            rw [ih _ n' m' [] (le_trans hlen hrk) (le_trans hlen hrn) (le_trans hlen hrm)]
          · rw [if_neg hp, if_neg hp]
            refine ih rest n' m' (c :: acc) ?_ ?_ ?_ <;>
              simp only [List.length_cons] at hk hn hm <;> omega

/-- Splitting a comma-free string yields the single accumulated piece. -/
theorem splitGo_no_comma :
    ∀ (p : Str) (n : ℕ) (acc : Str), ',' ∉ p → p.length ≤ n →
      splitGo [','] n p acc = [acc.reverse ++ p] := by
  intro p
  induction p with
  | nil =>
    intro n acc _ _
    cases n <;> simp [splitGo]
  | cons c rest ih =>
    intro n acc h hn
    cases n with
    | zero => simp at hn
    | succ n' =>
      simp only [splitGo]
      have hc : ¬([','].isPrefixOf (c :: rest) = true) := by
        show ¬((',' == c && List.isPrefixOf [] rest) = true)
        rw [List.isPrefixOf_nil_left, Bool.and_true]
        simp only [beq_iff_eq]
        intro he
        exact h (he ▸ List.mem_cons_self c rest)
      rw [if_neg hc,
        ih n' (c :: acc) (fun hm => h (List.mem_cons.mpr (Or.inr hm)))
          (by simp only [List.length_cons] at hn; omega)]
      simp

/-- Splitting at the first comma: with the head piece comma-free, the split
emits it and restarts after the comma. -/
theorem splitGo_comma_split :
    ∀ (a r : Str) (n : ℕ) (acc : Str), ',' ∉ a → (a ++ ',' :: r).length ≤ n →
      splitGo [','] n (a ++ ',' :: r) acc
        = (acc.reverse ++ a) :: splitGo [','] r.length r [] := by
  intro a
  induction a with
  | nil =>
    intro r n acc _ hn
    cases n with
    | zero => simp at hn
    | succ n' =>
      simp only [List.nil_append, splitGo]
      rw [if_pos (by rw [show ([','].isPrefixOf (',' :: r))
          = (',' == ',' && List.isPrefixOf [] r) from rfl] ; simp)]
      simp only [List.length_cons, List.append_nil, List.length_nil,
        List.drop_succ_cons, List.drop_zero]
      have hfuel : splitGo [','] n' r [] = splitGo [','] r.length r [] :=
        splitGo_fuel_irrel [','] (by simp) r.length r n' r.length []
          le_rfl (by simp only [List.length_cons, List.nil_append] at hn; omega) le_rfl
      rw [hfuel]
  | cons c a' ih =>
    intro r n acc h hn
    cases n with
    | zero => simp at hn
    | succ n' =>
      simp only [List.cons_append, splitGo]
      have hc : ¬([','].isPrefixOf (c :: (a' ++ ',' :: r)) = true) := by
        show ¬((',' == c && List.isPrefixOf [] (a' ++ ',' :: r)) = true)
        rw [List.isPrefixOf_nil_left, Bool.and_true]
        simp only [beq_iff_eq]
        intro he
        exact h (he ▸ List.mem_cons_self c a')
      rw [if_neg hc,
        ih r n' (c :: acc) (fun hm => h (List.mem_cons.mpr (Or.inr hm)))
          (by simp only [List.cons_append, List.length_cons] at hn; omega)]
      simp

/-- Splitting the comma-join of comma-free pieces recovers the pieces, each
piece after the first carrying the separator's space. -/
theorem splitGo_join :
    ∀ (ps : List Str) (p : Str) (n : ℕ) (acc : Str), ',' ∉ p → (∀ q ∈ ps, ',' ∉ q) →
      (intercalateL [',', ' '] (p :: ps)).length ≤ n →
      splitGo [','] n (intercalateL [',', ' '] (p :: ps)) acc
        = (acc.reverse ++ p) :: ps.map (fun q => ' ' :: q) := by
  intro ps
  induction ps with
  | nil =>
    intro p n acc hp _ hn
    simp only [intercalateL] at hn ⊢
    rw [splitGo_no_comma p n acc hp hn]
    simp
  | cons q qs ih =>
    intro p n acc hp hqs hn
    have hj : intercalateL [',', ' '] (p :: q :: qs)
        = p ++ ',' :: ' ' :: intercalateL [',', ' '] (q :: qs) := by
      show p ++ [',', ' '] ++ intercalateL [',', ' '] (q :: qs) = _
      simp [List.append_assoc]
    rw [hj] at hn ⊢
    rw [splitGo_comma_split p (' ' :: intercalateL [',', ' '] (q :: qs)) n acc hp hn]
    congr 1
    have hstep : splitGo [','] (' ' :: intercalateL [',', ' '] (q :: qs)).length
        (' ' :: intercalateL [',', ' '] (q :: qs)) []
        = splitGo [','] (intercalateL [',', ' '] (q :: qs)).length
            (intercalateL [',', ' '] (q :: qs)) [' '] := by
      simp only [List.length_cons, splitGo]
      rw [if_neg (by
        show ¬((',' == ' ' && List.isPrefixOf [] (intercalateL [',', ' '] (q :: qs))) = true)
        simp)]
    rw [hstep,
      ih q _ [' '] (hqs q (List.mem_cons_self q qs))
        (fun z hz => hqs z (List.mem_cons.mpr (Or.inr hz))) le_rfl]
    simp

/-- Membership in the deduplicating append is plain union membership. -/
theorem mem_dedupAppend (acc new : List String) (t : String) :
    t ∈ dedupAppend acc new ↔ t ∈ acc ∨ t ∈ new := by
  simp only [dedupAppend, List.mem_append, List.mem_filter]
  constructor
  · rintro (h | ⟨h, _⟩)
    · exact Or.inl h
    · exact Or.inr h
  · intro h
    by_cases ha : t ∈ acc
    · exact Or.inl ha
    · rcases h with h | h
      · exact Or.inl h
      · refine Or.inr ⟨h, ?_⟩
        simp [List.contains, List.elem_iff, ha]

/-- A tag is collected by the fragment fold exactly when it was already
accumulated or some fragment produces it. -/
theorem mem_foldl_frag :
    ∀ (parts : List Str) (acc : List String) (t : String),
      t ∈ parts.foldl (fun a p => dedupAppend a (processFragment p)) acc ↔
        t ∈ acc ∨ ∃ p, p ∈ parts ∧ t ∈ processFragment p := by
  intro parts
  induction parts with
  | nil => simp
  | cons p ps ih =>
    intro acc t
    simp only [List.foldl_cons]
    rw [ih, mem_dedupAppend]
    constructor
    · rintro ((h | h) | ⟨q, hq, htq⟩)
      · exact Or.inl h
      · exact Or.inr ⟨p, List.mem_cons_self p ps, h⟩
      · exact Or.inr ⟨q, List.mem_cons.mpr (Or.inr hq), htq⟩
    · rintro (h | ⟨q, hq, htq⟩)
      · exact Or.inl (Or.inl h)
      · rcases List.mem_cons.mp hq with rfl | hq
        · exact Or.inl (Or.inr htq)
        · exact Or.inr ⟨q, hq, htq⟩

/-- Processing a fragment ignores a leading space (the strip absorbs it). -/
theorem processFragment_cons_space (p : Str) :
    processFragment (' ' :: p) = processFragment p := by
  have hs : stripL (' ' :: p) = stripL p := by
    simp [stripL, List.dropWhile_cons, isSpaceC]
  simp [processFragment, hs]

/-- Every tag produced by the allergen mapping is a key of its table. -/
theorem mapAllergens_subset_keys (al : Str) (t : String) (ht : t ∈ mapAllergensStr al) :
    t ∈ allergen_mapping.map Prod.fst := by
  unfold mapAllergensStr at ht
  by_cases hg : (al = [] || stripL al = []) = true
  · simp only [decide_eq_true_eq] at hg
    rw [if_pos (by simpa using hg)] at ht
    cases ht
  · rw [if_neg (by simpa using hg)] at ht
    rw [mem_foldl_frag] at ht
    rcases ht with h | ⟨p, _, hp⟩
    · cases h
    · simp only [processFragment] at hp
      by_cases h3 : (stripAllergenPrefixes (lowerL (stripL p))).length < 3
      · rw [if_pos h3] at hp
        cases hp
      · rw [if_neg h3] at hp
        by_cases h4 : (allergen_skip_terms.any fun tm =>
            containsSubL tm.toList (stripAllergenPrefixes (lowerL (stripL p)))) = true
        · rw [if_pos h4] at hp
          cases hp
        · rw [if_neg h4] at hp
          rcases List.mem_map.mp hp with ⟨ep, hmem, hfst⟩
          have hml := List.mem_of_mem_filter hmem
          rcases List.mem_map.mp hml with ⟨ep0, h0, hep⟩
          exact List.mem_map.mpr ⟨ep0, h0, by rw [← hfst, ← hep]⟩

/-- No delimiter candidate occurs in any table key's rendered fragment. -/
theorem keys_tagNoDelim : ∀ k ∈ allergen_mapping.map Prod.fst, tagNoDelim k = true := by
  decide!

/-- A comma cannot occur in a fragment free of all delimiter candidates. -/
theorem comma_not_mem_of_tagNoDelim (u : String) (h : tagNoDelim u = true) :
    ',' ∉ tagFragment u := by
  intro hc
  have hin : containsSubL [','] (tagFragment u) = true :=
    (containsSubL_singleton ',' (tagFragment u)).mpr hc
  have h2 := List.all_eq_true.mp h "," (by decide)
  simp only [Bool.not_eq_true'] at h2
  have h3 : containsSubL [','] (tagFragment u) = false := h2
  rw [hin] at h3
  cases h3

/-- An element not satisfying the predicate survives `dropWhile`. -/
theorem mem_dropWhile_of_neg {p : Char → Bool} :
    ∀ (s : Str) (c : Char), c ∈ s → p c = false → c ∈ s.dropWhile p := by
  intro s
  induction s with
  | nil => intro c hc; cases hc
  | cons x r ih =>
    intro c hc hp
    rw [List.dropWhile_cons]
    by_cases hx : p x = true
    · rw [if_pos hx]
      rcases List.mem_cons.mp hc with rfl | hc
      · rw [hp] at hx; cases hx
      · exact ih c hc hp
    · rw [if_neg hx]
      exact hc

/-- A string containing a non-whitespace character does not strip to empty. -/
theorem stripL_ne_nil (s : Str) (c : Char) (hc : c ∈ s) (hns : isSpaceC c = false) :
    stripL s ≠ [] := by
  intro h0
  unfold stripL at h0
  have h1 : (((s.dropWhile isSpaceC).reverse).dropWhile isSpaceC) = [] := by
    have := congrArg List.reverse h0
    simpa using this
  have h2 : ∀ x ∈ (s.dropWhile isSpaceC).reverse, isSpaceC x = true :=
    List.dropWhile_eq_nil_iff.mp h1
  have h3 : c ∈ s.dropWhile isSpaceC := mem_dropWhile_of_neg s c hc hns
  have h4 := h2 c (List.mem_reverse.mpr h3)
  rw [hns] at h4
  cases h4

/-- `fragOK` in membership form. -/
theorem mem_processFragment_of_fragOK (t : String) (hok : fragOK t = true) :
    t ∈ processFragment (tagFragment t) := by
  simpa [fragOK, List.contains, List.elem_iff] using hok

/-- Tags whose rendered fragment re-maps to themselves are recovered when the
whole rendered set is re-mapped: the render joins fragments with `", "`, the
re-map splits on the comma (the first delimiter candidate) and processes each
fragment independently. -/
theorem mem_mapAllergens_render (S : List String) (t : String)
    (hkeys : ∀ u ∈ S, tagNoDelim u = true)
    (ht : t ∈ S) (hok : fragOK t = true) :
    t ∈ mapAllergensS (renderTags S) := by
  obtain ⟨p, ps, rfl⟩ : ∃ p ps, S = p :: ps := by
    cases S with
    | nil => cases ht
    | cons a l => exact ⟨a, l, rfl⟩
  show t ∈ mapAllergensStr (intercalateL [',', ' '] (tagFragment p :: ps.map tagFragment))
  have heJ : 'e' ∈ intercalateL [',', ' '] (tagFragment p :: ps.map tagFragment) := by
    have hdecomp : ∃ R, intercalateL [',', ' '] (tagFragment p :: ps.map tagFragment)
        = tagFragment p ++ R := by
      cases ps with
      | nil => exact ⟨[], by simp [intercalateL]⟩
      | cons q qs =>
        refine ⟨[',', ' '] ++ intercalateL [',', ' '] ((q :: qs).map tagFragment), ?_⟩
        show tagFragment p ++ [',', ' ']
            ++ intercalateL [',', ' '] ((q :: qs).map tagFragment) = _
        simp [List.append_assoc]
    rcases hdecomp with ⟨R, hR⟩
    rw [hR]
    exact List.mem_append.mpr (Or.inl (List.mem_append.mpr (Or.inl (by decide))))
  have hJne : intercalateL [',', ' '] (tagFragment p :: ps.map tagFragment) ≠ [] :=
    List.ne_nil_of_mem heJ
  have hstrip : stripL (intercalateL [',', ' '] (tagFragment p :: ps.map tagFragment)) ≠ [] :=
    stripL_ne_nil _ 'e' heJ (by decide)
  unfold mapAllergensStr
  rw [if_neg (by simp [hJne, hstrip])]
  cases ps with
  | nil =>
    have hfind : allergen_delimiters.find? (fun d => containsSubL d.toList
        (intercalateL [',', ' '] (tagFragment p :: List.map tagFragment []))) = none := by
      apply List.find?_eq_none.mpr
      intro d hd
      have hall := List.all_eq_true.mp (hkeys p (List.mem_cons_self p [])) d hd
      simp only [Bool.not_eq_true'] at hall
      simp only [Bool.not_eq_true]
      show containsSubL d.toList (tagFragment p) = false
      exact hall
    unfold splitFirstDelim
    rw [hfind]
    rcases List.mem_singleton.mp ht with rfl
    rw [mem_foldl_frag]
    refine Or.inr ⟨intercalateL [',', ' '] (tagFragment t :: List.map tagFragment []),
      List.mem_singleton.mpr rfl, ?_⟩
    show t ∈ processFragment (tagFragment t)
    exact mem_processFragment_of_fragOK t hok
  | cons q qs =>
    have hj : intercalateL [',', ' '] (tagFragment p :: (q :: qs).map tagFragment)
        = tagFragment p ++ ',' :: ' ' :: intercalateL [',', ' '] ((q :: qs).map tagFragment) := by
      show tagFragment p ++ [',', ' ']
          ++ intercalateL [',', ' '] ((q :: qs).map tagFragment) = _
      simp [List.append_assoc]
    have hcomma : containsSubL [','] (intercalateL [',', ' ']
        (tagFragment p :: (q :: qs).map tagFragment)) = true := by
      apply (containsSubL_singleton ',' _).mpr
      rw [hj]
      exact List.mem_append.mpr (Or.inr (List.mem_cons_self _ _))
    have hfind : allergen_delimiters.find? (fun d => containsSubL d.toList
        (intercalateL [',', ' '] (tagFragment p :: (q :: qs).map tagFragment))) = some "," := by
      rw [show allergen_delimiters
          = "," :: [";", "|", "/", "+", "&", " and ", " et ", " und "] from rfl]
      exact List.find?_cons_of_pos _ hcomma
    unfold splitFirstDelim
    rw [hfind]
    show t ∈ (splitOnL [','] _).foldl (fun a pp => dedupAppend a (processFragment pp)) []
    unfold splitOnL
    rw [if_neg (by simp)]
    have hcp : ',' ∉ tagFragment p :=
      comma_not_mem_of_tagNoDelim p (hkeys p (List.mem_cons_self _ _))
    have hcq : ∀ z ∈ (q :: qs).map tagFragment, ',' ∉ z := by
      intro z hz
      rcases List.mem_map.mp hz with ⟨u, hu, rfl⟩
      exact comma_not_mem_of_tagNoDelim u (hkeys u (List.mem_cons.mpr (Or.inr hu)))
    rw [splitGo_join ((q :: qs).map tagFragment) (tagFragment p) _ [] hcp hcq le_rfl]
    rw [mem_foldl_frag]
    rcases List.mem_cons.mp ht with rfl | htq
    · exact Or.inr ⟨[].reverse ++ tagFragment t,
        List.mem_cons_self _ _, by simpa using mem_processFragment_of_fragOK t hok⟩
    · refine Or.inr ⟨' ' :: tagFragment t, ?_, ?_⟩
      · exact List.mem_cons.mpr (Or.inr (List.mem_map.mpr
          ⟨tagFragment t, List.mem_map.mpr ⟨t, htq, rfl⟩, rfl⟩))
      · rw [processFragment_cons_space]
        exact mem_processFragment_of_fragOK t hok

/-- C7 (amended): re-mapping the rendered form of a mapped allergen set
yields a superset of the original mapping, for inputs each of whose mapped
tags round-trips through the vocabulary; equality fails in general because
bidirectional substring matching can add tags on the way back (see the
counterexample). -/
theorem c7_render_remap_superset :
    ∀ (x : String), (∀ u ∈ mapAllergensS x, fragOK u = true) →
      ∀ t ∈ mapAllergensS x, t ∈ mapAllergensS (renderTags (mapAllergensS x)) := by
  intro x hok t ht
  refine mem_mapAllergens_render (mapAllergensS x) t ?_ ht (hok t ht)
  intro u hu
  exact keys_tagNoDelim u (mapAllergens_subset_keys x.toList u hu)

/-- Witness for C7: the mapping of `"cheddar"` (namely `MILK`) survives the
rendered round trip. -/
theorem c7_render_remap_superset_witness :
    "MILK" ∈ mapAllergensS (renderTags (mapAllergensS "cheddar")) :=
  c7_render_remap_superset "cheddar" (by decide!) "MILK" (by decide!)

/-- Counterexample to C7 as stated: `"cheddar"` maps to exactly `MILK`, whose
rendered form `"en:milk"` lies inside the vocabulary, yet re-mapping the
rendering also matches `ALMONDS` (via the pattern `"almond milk"`), so the
round trip is a strict superset, not an equality. -/
theorem c7_counterexample_remap_not_equal :
    mapAllergensS "cheddar" = ["MILK"]
    ∧ fragOK "MILK" = true
    ∧ "ALMONDS" ∈ mapAllergensS (renderTags (mapAllergensS "cheddar"))
    ∧ "ALMONDS" ∉ mapAllergensS "cheddar" := by
  refine ⟨by decide!, by decide!, by decide!, by decide!⟩

/-- The allergen set recoverable from a raw queue cell (a string is mapped
through the table; anything else carries no allergens). -/
def queueAllergenSet : PyVal → List String
  | .vstr s => mapAllergensS s
  | _ => []

/-- The allergen set carried by a database-row cell: an enum array is itself,
raw text is mapped through the table. -/
def dbAllergenSet : PyVal → List String
  | .vlist l => l
  | .vstr s => mapAllergensS s
  | _ => []

/-- When the database-merge coercion succeeds it returns exactly the cell's
allergen set. -/
theorem dbCoerce_eq_set (ev : PyVal) (ea : List String)
    (h : dbCoerceAllergens ev = some ea) : dbAllergenSet ev = ea := by
  cases ev with
  | vstr s =>
    by_cases hs : s = ""
    · subst hs
      simp only [dbCoerceAllergens] at h
      simp at h
      subst h
      rfl
    · simp only [dbCoerceAllergens] at h
      simp [hs] at h
      rw [← h]
      rfl
  | vlist l =>
    simp only [dbCoerceAllergens] at h
    simp at h
    subst h
    rfl
  | vnone =>
    simp only [dbCoerceAllergens] at h
    simp at h
    subst h
    rfl
  | vnan => simp [dbCoerceAllergens] at h
  | vnum q =>
    by_cases hq : q = 0
    · subst hq
      simp only [dbCoerceAllergens] at h
      simp at h
      subst h
      rfl
    · simp [dbCoerceAllergens, hq] at h

/-- When the queue merge's per-side allergen term succeeds it returns exactly
the cell's recoverable allergen set. -/
theorem queueSide_eq_set (ev : PyVal) (ea : List String)
    (h : (if truthy ev then map_allergens_to_enum ev else some []) = some ea) :
    queueAllergenSet ev = ea := by
  cases ev with
  | vstr s =>
    by_cases hs : s = ""
    · subst hs
      simp [truthy] at h
      subst h
      rfl
    · simp [truthy, hs, map_allergens_to_enum] at h
      rw [← h]
      rfl
  | vnan =>
    simp [truthy, map_allergens_to_enum] at h
    subst h
    rfl
  | vnone =>
    simp [truthy] at h
    subst h
    rfl
  | vnum q =>
    by_cases hq : q = 0
    · subst hq
      simp [truthy] at h
      subst h
      rfl
    · simp [truthy, hq, map_allergens_to_enum] at h
  | vlist l =>
    by_cases hln : l = []
    · subst hln
      simp [truthy] at h
      subst h
      rfl
    · simp [truthy, hln, map_allergens_to_enum] at h

/-- A queue cell's recoverable allergen set consists of table keys. -/
theorem queueAllergenSet_subset_keys (w : PyVal) (t : String)
    (ht : t ∈ queueAllergenSet w) : t ∈ allergen_mapping.map Prod.fst := by
  cases w with
  | vstr s => exact mapAllergens_subset_keys s.toList t ht
  | vnone => cases ht
  | vnan => cases ht
  | vnum q => cases ht
  | vlist l => cases ht

/-- The allergens column of the queue merge's `elif` chain: the union of both
sides' mapped sets is stored re-rendered, and every tag of the union that
round-trips through the vocabulary is still recoverable from the rendering. -/
theorem queue_rest_allergens (ev nv : PyVal) (tcols : List String) (act : Option PyVal)
    (hact : queueMergeCellRest ev nv "allergens" tcols = some act)
    (t : String) (htm : t ∈ queueAllergenSet ev ∨ t ∈ queueAllergenSet nv)
    (hok : fragOK t = true) :
    t ∈ queueAllergenSet (applyAct (some act) ev) := by
  have hnum : (queue_numeric_fields.contains "allergens" && tcols.contains "allergens")
      = false := by
    rw [show queue_numeric_fields.contains "allergens" = false from rfl]
    rfl
  simp only [queueMergeCellRest] at hact
  rw [hnum] at hact
  simp only [Bool.false_eq_true, if_false, reduceIte] at hact
  cases hqm : queueAllergenMerge ev nv with
  | none => rw [hqm] at hact; cases hact
  | some v =>
    rw [hqm] at hact
    have hv := Option.some.inj hact
    simp only [queueAllergenMerge] at hqm
    cases hma : (if truthy ev then map_allergens_to_enum ev else some []) with
    | none => rw [hma] at hqm; cases hqm
    | some ea =>
      cases hna : (if truthy nv then map_allergens_to_enum nv else some []) with
      | none => rw [hma, hna] at hqm; cases hqm
      | some na =>
        rw [hma, hna] at hqm
        have hveq := Option.some.inj hqm
        rw [queueSide_eq_set ev ea hma, queueSide_eq_set nv na hna] at htm
        have hcomb : t ∈ dedupAppend ea na := (mem_dedupAppend _ _ _).mpr htm
        by_cases hd : dedupAppend ea na = []
        · rw [hd] at hcomb; cases hcomb
        · rw [← hv]
          show t ∈ queueAllergenSet v
          rw [← hveq, if_neg hd]
          show t ∈ mapAllergensS (renderTags (dedupAppend ea na))
          refine mem_mapAllergens_render (dedupAppend ea na) t ?_ hcomb hok
          intro u hu
          apply keys_tagNoDelim
          rcases (mem_dedupAppend _ _ _).mp hu with h | h
          · exact queueAllergenSet_subset_keys ev u (by rw [queueSide_eq_set ev ea hma]; exact h)
          · exact queueAllergenSet_subset_keys nv u (by rw [queueSide_eq_set nv na hna]; exact h)

/-- C6 (amended): the merge computations never drop allergens that survive
the representation: the database merge stores the deduplicated union of both
sides' sets as a list, and the queue merge's union contains both sides, with
every tag whose rendered fragment round-trips through the vocabulary still
recoverable from the re-rendered text.  (A tag whose rendering falls outside
the vocabulary is lost by the queue merge's re-rendering — see the
counterexample.) -/
theorem c6_allergen_union_nonshrinking :
    (∀ ev nv act, db_merge_cell ev nv "allergens" = some act →
      ∀ t, t ∈ dbAllergenSet ev ∨ t ∈ dbAllergenSet nv →
        t ∈ dbAllergenSet (applyAct (some act) ev))
    ∧ (∀ ev nv tcols act, queue_merge_cell ev nv "allergens" tcols = some act →
      ∀ t, (t ∈ queueAllergenSet ev ∨ t ∈ queueAllergenSet nv) → fragOK t = true →
        t ∈ queueAllergenSet (applyAct (some act) ev)) := by
  constructor
  · intro ev nv act hact t htm
    have hact' : (match dbCoerceAllergens ev, dbCoerceAllergens nv with
        | some ea, some na =>
          some (if ea ≠ [] || na ≠ [] then some (PyVal.vlist (dedupAppend ea na)) else none)
        | _, _ => none) = some act := hact
    cases hea : dbCoerceAllergens ev with
    | none => rw [hea] at hact'; cases hact'
    | some ea =>
      cases hna : dbCoerceAllergens nv with
      | none => rw [hea, hna] at hact'; cases hact'
      | some na =>
        rw [hea, hna] at hact'
        have hactv := Option.some.inj hact'
        rw [dbCoerce_eq_set ev ea hea, dbCoerce_eq_set nv na hna] at htm
        by_cases hne : (ea ≠ [] || na ≠ []) = true
        · rw [if_pos hne] at hactv
          rw [← hactv]
          show t ∈ dedupAppend ea na
          exact (mem_dedupAppend ea na t).mpr htm
        · simp only [Bool.or_eq_true, ne_eq, decide_eq_true_eq, not_or,
            Decidable.not_not] at hne
          rcases hne with ⟨he1, he2⟩
          rw [he1, he2] at htm
          rcases htm with h | h <;> cases h
  · intro ev nv tcols act hact t htm hok
    cases hbe : isnaExc ev with
    | none =>
      simp only [queue_merge_cell, hbe] at hact
      cases hact
    | some be =>
      simp only [queue_merge_cell, hbe] at hact
      by_cases hmiss : (be || isNoneV ev || eqEmptyStr ev) = true
      · rw [if_pos hmiss] at hact
        cases hbn : isnaExc nv with
        | none => rw [hbn] at hact; cases hact
        | some bn =>
          rw [hbn] at hact
          replace hact : (if (!(bn || isNoneV nv || eqEmptyStr nv)) = true
              then some (some nv)
              else queueMergeCellRest ev nv "allergens" tcols) = some act := hact
          by_cases hcnew : (!(bn || isNoneV nv || eqEmptyStr nv)) = true
          · rw [if_pos hcnew] at hact
            have hv := Option.some.inj hact
            rw [← hv]
            show t ∈ queueAllergenSet nv
            have hev0 : queueAllergenSet ev = [] := by
              cases ev with
              | vnan => rfl
              | vnone => rfl
              | vnum q => rfl
              | vlist l => rfl
              | vstr s =>
                have hbe2 : be = isnaB (PyVal.vstr s) := (Option.some.inj hbe).symm
                rw [hbe2] at hmiss
                simp only [isnaB, isNoneV, eqEmptyStr, Bool.false_or,
                  decide_eq_true_eq] at hmiss
                subst hmiss
                rfl
            rcases htm with h | h
            · rw [hev0] at h; cases h
            · exact h
          · rw [if_neg hcnew] at hact
            exact queue_rest_allergens ev nv tcols act hact t htm hok
      · rw [if_neg hmiss] at hact
        exact queue_rest_allergens ev nv tcols act hact t htm hok

/-- Witness for C6: merging a persisted `[MILK]` array with raw text
`"eggs"` keeps `MILK` in the merged set. -/
theorem c6_allergen_union_nonshrinking_witness :
    "MILK" ∈ dbAllergenSet (applyAct (some (some (PyVal.vlist ["MILK", "EGGS"])))
      (PyVal.vlist ["MILK"])) :=
  c6_allergen_union_nonshrinking.1 (PyVal.vlist ["MILK"]) (PyVal.vstr "eggs")
    (some (PyVal.vlist ["MILK", "EGGS"])) (by decide!) "MILK" (Or.inl (by decide))

/-- The C6 counterexample's queued entry: raw allergens `"sulfur dioxide"`,
which maps to the two tags `SULPHITES` and `SULFUR_DIOXIDE`. -/
def c6_row_a : Row := fun c =>
  if c = "allergens" then PyVal.vstr "sulfur dioxide" else PyVal.vnan

/-- The C6 counterexample's second entry: every cell missing. -/
def c6_row_b : Row := fun _ => PyVal.vnan

/-- Counterexample to C6 as stated: the queue merge re-renders the combined
set as `"en:sulphites, en:sulfur_dioxide"`, and the fragment
`"sulfur_dioxide"` matches nothing in the vocabulary (its keywords use a
space), so the merged entry's recoverable allergen set shrinks from two tags
to one — the merged cardinality is below the maximum of the two sides. -/
theorem c6_counterexample_sulfur_dioxide_lost :
    (merge_queue_items c6_row_a c6_row_b ["allergens"] get_table_columns).map
        (fun m => queueAllergenSet (m "allergens")) = some ["SULPHITES"]
    ∧ queueAllergenSet (c6_row_a "allergens") = ["SULPHITES", "SULFUR_DIOXIDE"]
    ∧ [("SULPHITES" : String)].length < ["SULPHITES", "SULFUR_DIOXIDE"].length := by
  refine ⟨by decide!, by decide!, by decide⟩

/-- Word characters of the regex `\w` class (ASCII). -/
def isWordChar (c : Char) : Bool := c.isAlphanum || c = '_'

/-- Does a word-boundary-delimited occurrence of `w` start at this position,
`prev` being the character just before it (`none` at the string start)? -/
def wbHere (w : Str) (prev : Option Char) (s : Str) : Bool :=
  (match prev with
   | none => true
   | some c => !(isWordChar c))
  && w.isPrefixOf s
  && (match s.drop w.length with
      | [] => true
      | c :: _ => !(isWordChar c))

/-- Scan for a word-boundary-delimited occurrence of `w`. -/
def wbGo (w : Str) : Option Char → Str → Bool
  | prev, s =>
    wbHere w prev s ||
      match s with
      | [] => false
      | c :: rest => wbGo w (some c) rest

/-- Model of `re.search` for a `\b`-literal-`\b` pattern (all unit patterns
of `parse_serving_size` have this shape; the `(?!\w)` in two of them adds
nothing beyond the trailing `\b`). -/
def wbMatch (w : Str) (s : Str) : Bool := wbGo w none s

/-- The `\d+(\.\d+)?` match at this position: its value and the rest. -/
def numHere (s : Str) : Option (ℚ × Str) :=
  match s with
  | [] => none
  | c :: _ =>
    if c.isDigit then
      let d1 := s.takeWhile Char.isDigit
      let r1 := s.dropWhile Char.isDigit
      match r1 with
      | '.' :: r2 =>
        if (r2.headD ' ').isDigit then
          some ((digitsVal d1 : ℚ) + (digitsVal (r2.takeWhile Char.isDigit) : ℚ)
              / (10 : ℚ) ^ (r2.takeWhile Char.isDigit).length,
            r2.dropWhile Char.isDigit)
        else some ((digitsVal d1 : ℚ), r1)
      | _ => some ((digitsVal d1 : ℚ), r1)
    else none

/-- The leftmost `\d+(\.\d+)?` match in the string. -/
def firstNumber : Str → Option (ℚ × Str)
  | [] => none
  | c :: rest =>
    match numHere (c :: rest) with
    | some v => some v
    | none => firstNumber rest

/-- The fraction pattern `\d+(\.\d+)?\s*/\s*\d+(\.\d+)?` at this position;
the first number backtracks only over its optional fractional part, since
shrinking a digit run leaves a digit where `/` is required. -/
def fracHere (s : Str) : Option (ℚ × ℚ) :=
  match s with
  | [] => none
  | c :: _ =>
    if c.isDigit then
      let d1 := s.takeWhile Char.isDigit
      let r1 := s.dropWhile Char.isDigit
      let tryRest : ℚ → Str → Option (ℚ × ℚ) := fun q r =>
        match r.dropWhile isSpaceC with
        | '/' :: r2 =>
          match numHere (r2.dropWhile isSpaceC) with
          | some (q2, _) => some (q, q2)
          | none => none
        | _ => none
      let n1 : ℚ := (digitsVal d1 : ℚ)
      match r1 with
      | '.' :: r2 =>
        if (r2.headD ' ').isDigit then
          match tryRest (n1 + (digitsVal (r2.takeWhile Char.isDigit) : ℚ)
              / (10 : ℚ) ^ (r2.takeWhile Char.isDigit).length)
              (r2.dropWhile Char.isDigit) with
          | some v => some v
          | none => tryRest n1 r1
        else tryRest n1 r1
      | _ => tryRest n1 r1
    else none

/-- The leftmost fraction match in the string. -/
def fracSearch : Str → Option (ℚ × ℚ)
  | [] => none
  | c :: rest =>
    match fracHere (c :: rest) with
    | some v => some v
    | none => fracSearch rest

/-- The first parenthesized group `\(([^)]*)\)`: the content of the first
`(` that is followed by a later `)`. -/
def firstParen : Str → Option Str
  | [] => none
  | c :: rest =>
    if c = '(' then
      if rest.any (fun x => x = ')') then some (rest.takeWhile (fun x => x ≠ ')'))
      else none
    else firstParen rest

/-- The parenthetical weight/volume unit patterns of `parse_serving_size`,
in source order. -/
def paren_unit_patterns : List (String × List String) :=
  [("ML", ["ml", "milliliter"]),
   ("L", ["l", "liter"]),
   ("KG", ["kg", "kilogram"]),
   ("G", ["g", "gram", "gr"]),
   ("OZ", ["oz", "once", "ounce"]),
   ("LB", ["lb", "pound"])]

/-- The main unit patterns of `parse_serving_size`, in source order (more
specific first). -/
def unit_patterns : List (String × List String) :=
  [("TBSP", ["tbsp", "tablespoon"]),
   ("TSP", ["tsp", "teaspoon"]),
   ("CUP", ["cup", "cups"]),
   ("ML", ["ml", "milliliter"]),
   ("L", ["l", "liter"]),
   ("KG", ["kg", "kilogram"]),
   ("G", ["g", "gram", "gr"]),
   ("OZ", ["oz", "once", "ounce"]),
   ("LB", ["lb", "pound"]),
   ("SLICE", ["slice", "slices"]),
   ("PIECE", ["piece", "pieces"]),
   ("CAN", ["can"]),
   ("BOTTLE", ["bottle"]),
   ("PACKET", ["packet", "pkg", "package"]),
   ("UNIT", ["unit", "units"])]

/-- The first unit (in pattern-list order) one of whose word-boundary
patterns occurs in the string. -/
def findUnit (pats : List (String × List String)) (s : Str) : Option String :=
  (pats.find? (fun ep => ep.2.any (fun p => wbMatch p.toList s))).map Prod.fst

/-- Python truthiness of the quantity (`0.0` is falsy). -/
def qtyTruthy : Option ℚ → Bool
  | some q => q ≠ 0
  | none => false

/-- Priority 1 of `parse_serving_size`: the first parenthesized group, when
it contains a number and one of the weight/volume units. -/
def parenAttempt (s : Str) : Option (ℚ × String) :=
  match firstParen s with
  | none => none
  | some content0 =>
    match firstNumber (stripL content0) with
    | none => none
    | some (q, _) =>
      match findUnit paren_unit_patterns (stripL content0) with
      | some u => some (q, u)
      | none => none

/-- Priority 2 of `parse_serving_size`: a fraction or first number from the
whole string, the ordered unit scan, then the piece/unit special cases; the
outer `Option` models an uncaught `ZeroDivisionError` on a fraction with
denominator zero. -/
def parseServingRest (s : Str) : Option (Option ℚ × Option String) :=
  match
    (match fracSearch s with
     | some (a, b) => if b = 0 then none else some (some (a / b))
     | none => some ((firstNumber s).map Prod.fst)) with
  | none => none
  | some quantity0 =>
    let unit1 : Option String :=
      match findUnit unit_patterns s with
      | some u => some u
      | none =>
        if ["cookie", "cracker", "whole"].any (fun w => containsSubL w.toList s)
            || ["stick", "bar"].any (fun w => containsSubL w.toList s) then
          some "PIECE"
        else if ["serving", "portion"].any (fun w => containsSubL w.toList s)
            || (!(s = []) && qtyTruthy quantity0) then
          some "UNIT"
        else none
    let quantity1 : Option ℚ :=
      match unit1, quantity0 with
      | some _, none => some 1
      | _, q => q
    some (quantity1, unit1)

/-- The body of `parse_serving_size` on the lower-cased, stripped string:
the parenthetical priority, then the main description parsing. -/
def parseServingCore (s : Str) : Option (Option ℚ × Option String) :=
  match parenAttempt s with
  | some (q, u) => some (some q, some u)
  | none => parseServingRest s

/-- Embedding of `data_cleaning.parse_serving_size`.  The argument is `none`
for a missing cell; the outer `Option` of the result models an uncaught
`ZeroDivisionError`; the payload is the `(quantity, unit)` pair. -/
def parse_serving_size (serving : Option String) : Option (Option ℚ × Option String) :=
  match serving with
  | none => some (none, none)
  | some raw =>
    if raw = "" || stripS raw = "" then some (none, none)
    else parseServingCore (stripL (lowerL raw.toList))

/-- `takeWhile` collects exactly the stop-free prefix. -/
theorem takeWhile_until_stop (b : Str) :
    ∀ (c : Str), ')' ∉ c → (c ++ ')' :: b).takeWhile (fun x => x ≠ ')') = c := by
  intro c
  induction c with
  | nil =>
    intro _
    simp [List.takeWhile_cons]
  | cons x r ih =>
    intro hc
    have hx : x ≠ ')' := fun h => hc (h ▸ List.mem_cons_self x r)
    simp only [List.cons_append, List.takeWhile_cons]
    rw [if_pos (by simp [hx]), ih (fun hm => hc (List.mem_cons.mpr (Or.inr hm)))]

/-- The first parenthesized group of a decomposed string: with no `(` before
it and no `)` inside it, the regex finds exactly the content `c`. -/
theorem firstParen_decomp :
    ∀ (a c b : Str), '(' ∉ a → ')' ∉ c →
      firstParen (a ++ '(' :: c ++ ')' :: b) = some c := by
  intro a
  induction a with
  | nil =>
    intro c b _ hc
    show firstParen ('(' :: (c ++ ')' :: b)) = some c
    have hred : firstParen ('(' :: (c ++ ')' :: b))
        = (if (c ++ ')' :: b).any (fun x => x = ')') then
            some ((c ++ ')' :: b).takeWhile (fun x => x ≠ ')'))
          else none) := rfl
    rw [hred, if_pos ?hany, takeWhile_until_stop b c hc]
    case hany =>
      apply List.any_eq_true.mpr
      exact ⟨')', List.mem_append.mpr (Or.inr (List.mem_cons_self _ _)), by decide⟩
  | cons y a' ih =>
    intro c b ha hc
    have hy : y ≠ '(' := fun h => ha (h ▸ List.mem_cons_self y a')
    show firstParen (y :: (a' ++ '(' :: c ++ ')' :: b)) = some c
    have hred : firstParen (y :: (a' ++ '(' :: c ++ ')' :: b))
        = (if y = '(' then
            (if (a' ++ '(' :: c ++ ')' :: b).any (fun x => x = ')') then
              some ((a' ++ '(' :: c ++ ')' :: b).takeWhile (fun x => x ≠ ')'))
            else none)
          else firstParen (a' ++ '(' :: c ++ ')' :: b)) := rfl
    rw [hred, if_neg hy]
    exact ih c b (fun hm => ha (List.mem_cons.mpr (Or.inr hm))) hc

/-- C9 (amended): the parenthetical priority applies to the FIRST
parenthesized sub-expression: whenever the first parenthesized group of the
normalized input contains a number and a recognized weight/volume unit, the
parser returns that group's first number and first matching unit and ignores
everything else; later parenthesized groups are never consulted (see the
counterexample). -/
theorem c9_first_paren_priority :
    ∀ (raw : String) (a c b : Str) (q : ℚ) (rest : Str) (u : String),
      raw ≠ "" → stripS raw ≠ "" →
      stripL (lowerL raw.toList) = a ++ '(' :: c ++ ')' :: b →
      '(' ∉ a → ')' ∉ c →
      firstNumber (stripL c) = some (q, rest) →
      findUnit paren_unit_patterns (stripL c) = some u →
      parse_serving_size (some raw) = some (some q, some u) := by
  intro raw a c b q rest u hr hrs hdecomp ha hc hnum hunit
  show (if raw = "" || stripS raw = "" then some (none, none)
        else parseServingCore (stripL (lowerL raw.toList)))
      = some (some q, some u)
  rw [if_neg (by simp [hr, hrs]), hdecomp]
  unfold parseServingCore parenAttempt
  rw [firstParen_decomp a c b ha hc]
  simp only [hnum, hunit]

/-- Witness for C9: the spec scenario `"1 bar (40 g)"` parses to quantity 40
with unit `G` via the parenthetical priority. -/
theorem c9_first_paren_priority_witness :
    parse_serving_size (some "1 bar (40 g)") = some (some 40, some "G") :=
  c9_first_paren_priority "1 bar (40 g)" "1 bar ".toList "40 g".toList [] 40 " g".toList "G"
    (by decide) (by decide) (by decide) (by decide) (by decide)
    (by decide!) (by decide)

/-- Counterexample to C9 as stated: `"(1) bar (40 g)"` contains the
parenthesized number-and-unit `"(40 g)"`, but the parser only consults the
FIRST parenthesized group `"(1)"`, which has no unit, and falls back to the
main parse: quantity 1 (the first number in the string), not 40. -/
theorem c9_counterexample_second_paren_ignored :
    parse_serving_size (some "(1) bar (40 g)") = some (some 1, some "G")
    ∧ (some (1 : ℚ), some "G") ≠ ((some 40, some "G") : Option ℚ × Option String) := by
  refine ⟨by decide!, by decide!⟩

/-- The outcome of the per-row filter in `import_ingredients_from_csv`: a
skipped row names the counter it increments; a row with an already-seen name
key is routed to the duplicate queue (incrementing
`rows_skipped_duplicate_name`); surviving rows are prepared for the batch. -/
inductive RowOutcome
  | skip (counter : String)
  | dupQueue
  | accepted
deriving DecidableEq

/-- The American-market identifiers of `is_american_product`. -/
def american_identifiers : List String :=
  ["united states", "usa", "us", "united-states", "en:united-states", "en:usa", "en:us"]

/-- Embedding of `data_processing.is_american_product`: some of the three
country fields (missing ones are skipped) contains some identifier as a
substring of its lower-cased text; the enclosing try/except cannot fire in
this total model. -/
def is_american_product (row : Row) : Bool :=
  [row "countries", row "countries_tags", row "countries_en"].any fun f =>
    if isnaB f then false
    else american_identifiers.any fun idf => containsSubS idf (lowerS (pyStr f))

/-- The core-nutrition check: any of the four nutrient fields is present. -/
def has_nutrition (row : Row) : Bool :=
  [row "energy-kcal_100g", row "proteins_100g", row "carbohydrates_100g",
   row "fat_100g"].any fun v => !(isnaB v)

/-- The primary-code check: missing or blank after conversion. -/
def code_blank (row : Row) : Bool :=
  isnaB (row "code") || stripS (pyStr (row "code")) = ""

/-- The product-name check: missing or blank after conversion. -/
def name_blank (row : Row) : Bool :=
  isnaB (row "product_name") || stripS (pyStr (row "product_name")) = ""

/-- The deduplication name key: stripped, lower-cased product name. -/
def name_key (row : Row) : String := lowerS (stripS (pyStr (row "product_name")))

/-- Embedding of the per-row filter of `import_ingredients_from_csv`, in
source order: missing/blank code and missing/blank name both increment the
shared `rows_skipped` counter; an already-seen name key is queued as a
duplicate; then the nutrition check, then the locale predicate; survivors
are prepared for the Batch Writer. -/
def filter_row (seen : List String) (row : Row) : RowOutcome :=
  if code_blank row then .skip "rows_skipped"
  else if name_blank row then .skip "rows_skipped"
  else if seen.contains (name_key row) then .dupQueue
  else if !(has_nutrition row) then .skip "rows_skipped_no_nutrition"
  else if !(is_american_product row) then .skip "rows_skipped_non_american"
  else .accepted

/-- C8 (amended): the Row Filter checks, in order, the primary code, the
product name, the duplicate queue, the core-nutrition signal and the locale
predicate, never raising; the nutrition and locale rejections each have
their own skip counter, but the code and name rejections share the one
`rows_skipped` counter (see the counterexample). -/
theorem c8_row_filter_spec :
    ∀ (seen : List String) (row : Row),
      (code_blank row = true → filter_row seen row = .skip "rows_skipped")
      ∧ (code_blank row = false → name_blank row = true →
          filter_row seen row = .skip "rows_skipped")
      ∧ (code_blank row = false → name_blank row = false →
          seen.contains (name_key row) = true → filter_row seen row = .dupQueue)
      ∧ (code_blank row = false → name_blank row = false →
          seen.contains (name_key row) = false → has_nutrition row = false →
          filter_row seen row = .skip "rows_skipped_no_nutrition")
      ∧ (code_blank row = false → name_blank row = false →
          seen.contains (name_key row) = false → has_nutrition row = true →
          is_american_product row = false →
          filter_row seen row = .skip "rows_skipped_non_american")
      ∧ (code_blank row = false → name_blank row = false →
          seen.contains (name_key row) = false → has_nutrition row = true →
          is_american_product row = true → filter_row seen row = .accepted) := by
  intro seen row
  refine ⟨fun h1 => ?_, fun h1 h2 => ?_, fun h1 h2 h3 => ?_, fun h1 h2 h3 h4 => ?_,
    fun h1 h2 h3 h4 h5 => ?_, fun h1 h2 h3 h4 h5 => ?_⟩
  · simp [filter_row, h1]
  · simp [filter_row, h1, h2]
  · unfold filter_row
    rw [if_neg (by simp [h1]), if_neg (by simp [h2]), if_pos h3]
  · unfold filter_row
    rw [if_neg (by simp [h1]), if_neg (by simp [h2]), if_neg (by simpa using h3),
      if_pos (by simp [h4])]
  · unfold filter_row
    rw [if_neg (by simp [h1]), if_neg (by simp [h2]), if_neg (by simpa using h3),
      if_neg (by simp [h4]), if_pos (by simp [h5])]
  · unfold filter_row
    rw [if_neg (by simp [h1]), if_neg (by simp [h2]), if_neg (by simpa using h3),
      if_neg (by simp [h4]), if_neg (by simp [h5])]

/-- A row that passes every check of the Row Filter. -/
def c8_good_row : Row := fun c =>
  if c = "code" then PyVal.vstr "123"
  else if c = "product_name" then PyVal.vstr "Peanut Butter"
  else if c = "proteins_100g" then PyVal.vstr "25"
  else if c = "countries" then PyVal.vstr "United States"
  else PyVal.vnan

/-- Witness for C8: the concrete well-formed row is accepted. -/
theorem c8_row_filter_spec_witness : filter_row [] c8_good_row = RowOutcome.accepted :=
  (c8_row_filter_spec [] c8_good_row).2.2.2.2.2 (by decide) (by decide) (by decide)
    (by decide) (by decide)

/-- A row with every cell missing: it fails the code check. -/
def c8_no_code_row : Row := fun _ => PyVal.vnan

/-- A row with a code but a blank name: it fails the name check. -/
def c8_no_name_row : Row := fun c =>
  if c = "code" then PyVal.vstr "123" else if c = "product_name" then PyVal.vstr " "
  else PyVal.vnan

/-- Counterexample to C8 as stated: a missing-code row and a blank-name row
are rejected for different reasons yet increment the same `rows_skipped`
counter, so the filter does not keep a distinct skip counter per rejection
reason. -/
theorem c8_counterexample_shared_skip_counter :
    filter_row [] c8_no_code_row = RowOutcome.skip "rows_skipped"
    ∧ filter_row [] c8_no_name_row = RowOutcome.skip "rows_skipped"
    ∧ code_blank c8_no_code_row = true
    ∧ code_blank c8_no_name_row = false
    ∧ name_blank c8_no_name_row = true := by
  refine ⟨by decide, by decide, by decide, by decide, by decide⟩

/-- The outcome of one single-row upsert at the storage boundary. -/
inductive SingleOutcome
  | ok (rowcount : ℕ)
  | err (msg : String)
deriving DecidableEq

/-- A storage oracle for the batch writer: whether the set-based upsert of
the whole batch raises (with its exception text), and what the single-row
upsert of each row does. -/
structure DbOracle (α : Type) where
  batchError : Option String
  single : α → SingleOutcome

/-- The mutable results dictionary threaded through the writer. -/
structure ImportResults where
  rows_imported : ℕ
  errors : List String
deriving DecidableEq

/-- Embedding of `database.insert_single_row`: the whole body sits in a
try/except, so on success a positive rowcount increments `rows_imported`,
any raised error is caught and appended to this results dict's `errors`, and
the function itself never raises. -/
def insert_single_row {α : Type} (o : DbOracle α) (row : α) (results : ImportResults) :
    ImportResults :=
  match o.single row with
  | .ok rc =>
    if rc > 0 then { results with rows_imported := results.rows_imported + 1 } else results
  | .err m =>
    { results with errors := results.errors ++ ["Failed to insert single row: " ++ m] }

/-- Embedding of `database.insert_batch_data`, returning
`(imported, duplicates, errors)`.  On success the imported count is the
attempted batch size.  On batch failure the code rolls back and retries each
row through `insert_single_row` inside a try/except that counts failures —
but `insert_single_row` catches its own exceptions (recording them in a
local `individual_results` dict that is then discarded), so the except
branch is unreachable: every row increments `success_count` and
`fail_count` stays zero, and the recovery-summary message is only appended
when `fail_count > 0`. -/
def insert_batch_data {α : Type} (o : DbOracle α) (batch : List α) :
    ℕ × ℕ × List String :=
  match o.batchError with
  | none => (batch.length, 0, [])
  | some e =>
    let final := batch.foldl
      (fun (st : ℕ × ℕ × ImportResults) row =>
        (st.1 + 1, st.2.1, insert_single_row o row st.2.2))
      (0, 0, ⟨0, []⟩)
    let errors :=
      if final.2.1 > 0 then
        ["Batch failed, individual recovery: " ++ toString final.1 ++ "/"
          ++ toString batch.length ++ " rows saved"]
      else []
    (final.1, 0, errors ++ ["Batch insert failed: " ++ e])

/-- The C1 oracle: the batch upsert fails, and row 1's individual upsert
fails with a constraint error while the other rows succeed. -/
def c1_oracle : DbOracle ℕ where
  batchError := some "numeric field overflow"
  single := fun r => if r = 1 then SingleOutcome.err "value out of range" else SingleOutcome.ok 1

/-- C1 (code bug): on batch failure with one individually-failing row out of
three, the fallback reports every row as imported (3, not the 2 that
individually succeeded), appends no recovery summary, and the per-row
failure message — recorded only in the discarded local results — never
reaches the returned error list; only the original batch error does. -/
theorem c1_fallback_miscounts_and_drops_failures :
    insert_batch_data c1_oracle [0, 1, 2]
      = (3, 0, ["Batch insert failed: numeric field overflow"])
    ∧ (insert_batch_data c1_oracle [0, 1, 2]).2.2.contains
        "Failed to insert single row: value out of range" = false
    ∧ (([0, 1, 2] : List ℕ).filter (fun r =>
        match c1_oracle.single r with
        | SingleOutcome.ok _ => true
        | SingleOutcome.err _ => false)).length = 2
    ∧ (3 : ℕ) ≠ 2 := by
  refine ⟨by decide, by decide, by decide, by decide⟩

/-- The outcome of one queued duplicate during batch reconciliation: no
persisted product matched (the item is silently dropped), or the merge
update succeeded or failed. -/
inductive QueueItemOutcome
  | noMatch
  | mergeOk
  | mergeFail
deriving DecidableEq

/-- The loop of `duplicate_handling.process_duplicate_queue_batch` over the
queued items, with each item's merge outcome abstracted: returns
`(processed, failed, aborted)`.  A failure that brings the cumulative count
to 5 raises immediately, which the caller records and re-raises. -/
def process_queue_loop : List QueueItemOutcome → ℕ → ℕ → ℕ × ℕ × Bool
  | [], p, f => (p, f, false)
  | .noMatch :: rest, p, f => process_queue_loop rest p f
  | .mergeOk :: rest, p, f => process_queue_loop rest (p + 1) f
  | .mergeFail :: rest, p, f =>
    if f + 1 ≥ 5 then (p, f + 1, true) else process_queue_loop rest p (f + 1)

/-- Embedding of `process_duplicate_queue_batch`: the loop result, paired
with the error messages added to the user-facing aggregation — per-record
failures add none; only the threshold abort appends its message (and
re-raises, aborting the import). -/
def process_duplicate_queue_batch (items : List QueueItemOutcome) :
    (ℕ × ℕ × Bool) × List String :=
  let r := process_queue_loop items 0 0
  (r,
    if r.2.2 then
      ["Batch duplicate processing failed: Duplicate merge failures exceed threshold"]
    else [])

/-- Below the threshold the loop processes every sibling and never aborts. -/
theorem process_queue_loop_complete :
    ∀ (items : List QueueItemOutcome) (p f : ℕ),
      f + items.count QueueItemOutcome.mergeFail < 5 →
      process_queue_loop items p f
        = (p + items.count QueueItemOutcome.mergeOk,
           f + items.count QueueItemOutcome.mergeFail, false) := by
  intro items
  induction items with
  | nil => intro p f _; simp [process_queue_loop]
  | cons i rest ih =>
    intro p f hlt
    cases i with
    | noMatch =>
      simp only [process_queue_loop]
      rw [ih p f (by simpa [List.count_cons] using hlt)]
      simp [List.count_cons]
    | mergeOk =>
      simp only [process_queue_loop]
      rw [ih (p + 1) f (by simpa [List.count_cons] using hlt)]
      simp [List.count_cons]
      omega
    | mergeFail =>
      simp only [process_queue_loop]
      rw [if_neg (by simp [List.count_cons] at hlt; omega)]
      rw [ih p (f + 1) (by simp [List.count_cons] at hlt ⊢; omega)]
      simp [List.count_cons]
      omega

/-- At or past the threshold the loop aborts. -/
theorem process_queue_loop_abort :
    ∀ (items : List QueueItemOutcome) (p f : ℕ), f < 5 →
      5 ≤ f + items.count QueueItemOutcome.mergeFail →
      (process_queue_loop items p f).2.2 = true := by
  intro items
  induction items with
  | nil =>
    intro p f hf hge
    simp [List.count_nil] at hge
    omega
  | cons i rest ih =>
    intro p f hf hge
    cases i with
    | noMatch =>
      simp only [process_queue_loop]
      exact ih p f hf (by simpa [List.count_cons] using hge)
    | mergeOk =>
      simp only [process_queue_loop]
      exact ih (p + 1) f hf (by simpa [List.count_cons] using hge)
    | mergeFail =>
      simp only [process_queue_loop]
      by_cases h5 : f + 1 ≥ 5
      · rw [if_pos h5]
      · rw [if_neg h5]
        exact ih p (f + 1) (by omega) (by simp [List.count_cons] at hge ⊢; omega)

/-- C5 (amended): during a batch drain, per-record merge failures are
recovered — below the threshold every sibling is processed and nothing is
added to the user-facing error aggregation — and the import is aborted with
an error exactly when the CUMULATIVE failure count within the batch reaches
the fixed threshold of 5 (at the fifth failure, regardless of intervening
successes — not when CONSECUTIVE failures exceed 5; see the
counterexample). -/
theorem c5_threshold_aborts_at_five_cumulative :
    ∀ (items : List QueueItemOutcome),
      ((process_duplicate_queue_batch items).1.2.2 = true
        ↔ 5 ≤ items.count QueueItemOutcome.mergeFail)
      ∧ (items.count QueueItemOutcome.mergeFail < 5 →
          (process_duplicate_queue_batch items).1
            = (items.count QueueItemOutcome.mergeOk,
               items.count QueueItemOutcome.mergeFail, false)
          ∧ (process_duplicate_queue_batch items).2 = [])
      ∧ ((process_duplicate_queue_batch items).1.2.2 = true →
          (process_duplicate_queue_batch items).2
            = ["Batch duplicate processing failed: Duplicate merge failures exceed threshold"]) := by
  intro items
  refine ⟨⟨fun hab => ?_, fun hge => ?_⟩, fun hlt => ?_, fun hab => ?_⟩
  · by_contra hlt
    push_neg at hlt
    have := process_queue_loop_complete items 0 0 (by omega)
    simp only [process_duplicate_queue_batch, this] at hab
    cases hab
  · show (process_queue_loop items 0 0).2.2 = true
    exact process_queue_loop_abort items 0 0 (by omega) (by omega)
  · have := process_queue_loop_complete items 0 0 (by omega)
    constructor
    · show process_queue_loop items 0 0 = _
      rw [this]
      simp
    · show (if (process_queue_loop items 0 0).2.2 then _ else []) = []
      rw [this]
      rfl
  · show (if (process_queue_loop items 0 0).2.2 then
        ["Batch duplicate processing failed: Duplicate merge failures exceed threshold"]
      else []) = _
    have hab2 : (process_queue_loop items 0 0).2.2 = true := hab
    rw [if_pos hab2]

/-- Witness for C5: one failure among two items is below the threshold, so
both siblings are handled and no user-facing error is recorded. -/
theorem c5_threshold_witness :
    (process_duplicate_queue_batch [QueueItemOutcome.mergeOk, QueueItemOutcome.mergeFail]).1
      = (1, 1, false)
    ∧ (process_duplicate_queue_batch
        [QueueItemOutcome.mergeOk, QueueItemOutcome.mergeFail]).2 = [] :=
  (c5_threshold_aborts_at_five_cumulative
    [QueueItemOutcome.mergeOk, QueueItemOutcome.mergeFail]).2.1 (by decide)

/-- The maximal run of consecutive merge failures, following the claim's
wording ("consecutive merge failures exceed the fixed threshold of 5"). -/
def consecFailGo : List QueueItemOutcome → ℕ → ℕ → ℕ
  | [], cur, best => max cur best
  | .mergeFail :: rest, cur, best => consecFailGo rest (cur + 1) (max (cur + 1) best)
  | _ :: rest, _, best => consecFailGo rest 0 best

/-- The maximal number of consecutive merge failures in the item list. -/
def maxConsecFail (items : List QueueItemOutcome) : ℕ := consecFailGo items 0 0

/-- Counterexample to C5 as stated: five straight failures abort the run,
yet the consecutive-failure count is exactly 5, which does not EXCEED 5 —
the code stops at the fifth cumulative failure (`failed_count >= 5`), not
after more than five consecutive ones. -/
theorem c5_counterexample_five_failures_abort :
    (process_duplicate_queue_batch (List.replicate 5 QueueItemOutcome.mergeFail)).1.2.2 = true
    ∧ maxConsecFail (List.replicate 5 QueueItemOutcome.mergeFail) = 5
    ∧ ¬(maxConsecFail (List.replicate 5 QueueItemOutcome.mergeFail) > 5) := by
  refine ⟨by decide, by decide, by decide⟩
